import Mathlib

/-
Verification of the PR quadtree in src/QuadTree/QuadTree.cpp.

The scalar type `TScalar` is `uint64_t`; we model it as `Nat` with explicit
reduction modulo `2 ^ 64` at every arithmetic operator, exactly where C++
unsigned arithmetic wraps.  The node graph of the C++ code (four child
pointers that are all null or all non-null, as asserted throughout the
source) is modelled by the inductive `Node` with a childless and a
four-children constructor.  The collision loop of `CQuadTree::Insert` is a
`do/while` loop; it is modelled with an explicit fuel parameter
(`collide`), returning `none` when the fuel is exhausted, and we prove
that fuel 64 always suffices.

A second, pool-level model (`PState`) embeds the page allocator
(`AllocatePage` / `AllocateNode`) and the tree operations working on slot
indices, with every C++ `assert` surfaced as an `Except.error`.
-/

set_option maxHeartbeats 1000000
set_option maxRecDepth 100000

namespace PRQuadTree

/-- Size of the scalar domain: `TScalar` is `uint64_t`. -/
def U : Nat := 2 ^ 64

/-- `CQuadTree::CCoordinate`: a 2-D point over 64-bit unsigned integers. -/
structure Coordinate where
  x : Nat
  y : Nat
deriving DecidableEq

/-- The default-constructed coordinate `CCoordinate()` (both components zero). -/
def Coordinate.zero : Coordinate := ⟨0, 0⟩

/-- `CCoordinate::operator+`: component-wise addition, wrapping mod `2 ^ 64`. -/
def Coordinate.add (a b : Coordinate) : Coordinate :=
  ⟨(a.x + b.x) % U, (a.y + b.y) % U⟩

/-- `CCoordinate::operator-`: component-wise subtraction, wrapping mod `2 ^ 64`.
For arguments below `U` this is the C++ unsigned subtraction. -/
def Coordinate.sub (a b : Coordinate) : Coordinate :=
  ⟨(a.x + U - b.x) % U, (a.y + U - b.y) % U⟩

/-- `CCoordinate::operator/`: component-wise truncating division. -/
def Coordinate.div (a b : Coordinate) : Coordinate :=
  ⟨a.x / b.x, a.y / b.y⟩

/-- `CQuadTree::CBounds`: a closed axis-aligned rectangle (inclusive min/max). -/
structure Bounds where
  min : Coordinate
  max : Coordinate
deriving DecidableEq

/-- `CBounds::Contains`: `point.x >= min.x && point.y >= min.y && point.x <= max.x && point.y <= max.y`. -/
def Bounds.containsB (b : Bounds) (p : Coordinate) : Bool :=
  decide (b.min.x ≤ p.x) && decide (b.min.y ≤ p.y) && decide (p.x ≤ b.max.x) && decide (p.y ≤ b.max.y)

/-- `CNode::EType`. -/
inductive NType where
  | Leaf
  | Region
  | Undefined
deriving DecidableEq

/-- `CQuadTree::EInsertResult`. -/
inductive EInsertResult where
  | OutOfRegionBounds
  | DuplicateEntry
  | Success
deriving DecidableEq

/-- `CQuadTree::EFindResult`. -/
inductive EFindResult where
  | OutOfRegionBounds
  | NoEntry
  | Success
deriving DecidableEq

/-- `CQuadTree::CNode`: bounds, point, node type and the four child
pointers, which in the source are all null (`node0`) or all four set
(`node4`) — every code path sets the four together (`Split`) and the
source asserts the remaining three whenever `m_pNorthWest` is non-null. -/
inductive Node where
  | node0 (regionBounds : Bounds) (point : Coordinate) (nodeType : NType)
  | node4 (regionBounds : Bounds) (point : Coordinate) (nodeType : NType)
      (nw ne se sw : Node)
deriving DecidableEq

/-- The `m_regionBounds` field. -/
def Node.regionBounds : Node → Bounds
  | .node0 b _ _ => b
  | .node4 b _ _ _ _ _ _ => b

/-- Bounds computation of `CNode::Split` (lines 236-246): `centerMin = min
+ (max - min) / (2,2)`, `centerMax = centerMin + (1,1)`, and the four
quadrant bounds NW, NE, SE, SW in source order. -/
def splitBounds (b : Bounds) : Bounds × Bounds × Bounds × Bounds :=
  let mn := b.min
  let mx := b.max
  let centerMin := mn.add ((mx.sub mn).div ⟨2, 2⟩)
  let centerMax := centerMin.add ⟨1, 1⟩
  (⟨mn, centerMin⟩,
   ⟨⟨centerMax.x, mn.y⟩, ⟨mx.x, centerMin.y⟩⟩,
   ⟨centerMax, mx⟩,
   ⟨⟨mn.x, centerMax.y⟩, ⟨centerMin.x, mx.y⟩⟩)

/-- The while-loop of `CNode::Find` (lines 193-217): descend through the
children — first of NW, NE, SE whose bounds contain the point, SW
otherwise — until a childless node is reached; returns that terminal
node's `(m_regionBounds, m_point, m_nodeType)`. -/
def Node.descend : Node → Coordinate → Bounds × Coordinate × NType
  | .node0 b pt ty, _ => (b, pt, ty)
  | .node4 _ _ _ nw ne se sw, p =>
    if nw.regionBounds.containsB p then nw.descend p
    else if ne.regionBounds.containsB p then ne.descend p
    else if se.regionBounds.containsB p then se.descend p
    else sw.descend p

/-- Result computation of `CNode::Find` (lines 219-227): `NoEntry` if the
terminal node is a `Region`, else `Success` iff its point equals the query. -/
def Node.findResult (t : Node) (p : Coordinate) : EFindResult :=
  let (_, pt, ty) := t.descend p
  if ty = .Region then .NoEntry
  else if pt = p then .Success else .NoEntry

/-- A freshly allocated empty `Region` node with the given bounds
(`AllocateRegionNode` + `InitializeAsRegion`). -/
def emptyRegion (b : Bounds) : Node := .node0 b .zero .Region

/-- The four quadrants, in the order they are checked by the descent
chains of `CNode::Find` and `CNode::ContainingSubRegion`. -/
inductive Quadrant where
  | nw
  | ne
  | se
  | sw
deriving DecidableEq

/-- The quadrant chosen by the `ContainingSubRegion` chain (lines 274-290)
among the four freshly split children: first of NW, NE, SE whose bounds
contain the point, SW otherwise. -/
def quadIndex (nwB neB seB _swB : Bounds) (p : Coordinate) : Quadrant :=
  if nwB.containsB p then .nw
  else if neB.containsB p then .ne
  else if seB.containsB p then .se
  else .sw

/-- `CNode::ContainingSubRegion` restricted to a freshly split node: the
outer `m_regionBounds.Contains` check (line 264) yields `none` and the
chain picks one of the four children otherwise. -/
def pickQuad (b nwB neB seB swB : Bounds) (p : Coordinate) : Option Quadrant :=
  if b.containsB p then some (quadIndex nwB neB seB swB p) else none

/-- One of the four quadrant bounds, by quadrant. -/
def quadAt (nwB neB seB swB : Bounds) : Quadrant → Bounds
  | .nw => nwB
  | .ne => neB
  | .se => seB
  | .sw => swB

/-- Four children for a split node: position `i` holds `c`, the others are
freshly allocated empty regions. -/
def kidsWith (nwB neB seB swB : Bounds) (i : Quadrant) (c : Node) : Quadrant → Node :=
  fun k => if k = i then c else emptyRegion (quadAt nwB neB seB swB k)

/-- Four children where two distinct positions hold the two new leaves and
the rest are empty regions. -/
def kidsWith2 (nwB neB seB swB : Bounds) (i j : Quadrant) (ci cj : Node) : Quadrant → Node :=
  fun k => if k = i then ci else if k = j then cj else emptyRegion (quadAt nwB neB seB swB k)

/-- Shorthand: the bounds of quadrant `k` of a split of `b`. -/
def quadOf (b : Bounds) (k : Quadrant) : Bounds :=
  quadAt (splitBounds b).1 (splitBounds b).2.1 (splitBounds b).2.2.1 (splitBounds b).2.2.2 k

/-- Shorthand: the quadrant of a split of `b` selected for `p` by the
descent chain. -/
def idxOf (b : Bounds) (p : Coordinate) : Quadrant :=
  quadIndex (splitBounds b).1 (splitBounds b).2.1 (splitBounds b).2.2.1 (splitBounds b).2.2.2 p

/-- Shorthand for `kidsWith` on the quadrants of a split of `b`. -/
def kidsOf (b : Bounds) (i : Quadrant) (c : Node) : Quadrant → Node :=
  kidsWith (splitBounds b).1 (splitBounds b).2.1 (splitBounds b).2.2.1 (splitBounds b).2.2.2 i c

/-- The four children of an inner node, as a function of the quadrant. -/
def quadChild (nw ne se sw : Node) : Quadrant → Node
  | .nw => nw
  | .ne => ne
  | .se => se
  | .sw => sw

/-- Update one position of a four-children function (the in-place rebuild
of the child that `Insert` descended into). -/
def kidsUpd (f : Quadrant → Node) (i : Quadrant) (c : Node) : Quadrant → Node :=
  fun k => if k = i then c else f k

/-- Shorthand for `kidsWith2` on the quadrants of a split of `b`. -/
def kidsOf2 (b : Bounds) (i j : Quadrant) (ci cj : Node) : Quadrant → Node :=
  kidsWith2 (splitBounds b).1 (splitBounds b).2.1 (splitBounds b).2.2.1 (splitBounds b).2.2.2
    i j ci cj

/-- The collision loop of `CQuadTree::Insert` (lines 336-342): repeatedly
`Split` the node holding `existingPoint`, re-descend both points through
the fresh quadrants via `ContainingSubRegion`, until they fall into two
different children; those two children then become leaves (lines
346-351).  The C++ loop is unbounded; `fuel` counts loop iterations and
the result is `none` when the fuel is exhausted (we prove 64 always
suffices) or when a `ContainingSubRegion` call returns null (which the
source asserts against, line 341). -/
def collide : Nat → Bounds → Coordinate → Coordinate → Option Node
  | 0, _, _, _ => none
  | fuel + 1, b, existingPoint, point =>
    let q := splitBounds b
    let nwB := q.1
    let neB := q.2.1
    let seB := q.2.2.1
    let swB := q.2.2.2
    match pickQuad b nwB neB seB swB existingPoint, pickQuad b nwB neB seB swB point with
    | some i, some j =>
      if i = j then
        (collide fuel (quadAt nwB neB seB swB i) existingPoint point).map (fun c =>
          let kids := kidsWith nwB neB seB swB i c
          Node.node4 b .zero .Region (kids .nw) (kids .ne) (kids .se) (kids .sw))
      else
        some (
          let kids := kidsWith2 nwB neB seB swB i j
            (.node0 (quadAt nwB neB seB swB i) existingPoint .Leaf)
            (.node0 (quadAt nwB neB seB swB j) point .Leaf)
          Node.node4 b .zero .Region (kids .nw) (kids .ne) (kids .se) (kids .sw))
    | _, _ => none

/-- `CQuadTree::Insert` (lines 308-364), as a functional rebuild of the
in-place mutation: descend (the same chain as `CNode::Find`) to the
terminal node; return `DuplicateEntry` leaving the tree unchanged when the
find outcome is `Success`; on a childless region convert it to a leaf; on
a leaf holding a different point run the collision loop. -/
def Node.insert : Node → Coordinate → Nat → Option (EInsertResult × Node)
  | .node4 b pt ty nw ne se sw, p, fuel =>
    if nw.regionBounds.containsB p then
      (nw.insert p fuel).map (fun r => (r.1, .node4 b pt ty r.2 ne se sw))
    else if ne.regionBounds.containsB p then
      (ne.insert p fuel).map (fun r => (r.1, .node4 b pt ty nw r.2 se sw))
    else if se.regionBounds.containsB p then
      (se.insert p fuel).map (fun r => (r.1, .node4 b pt ty nw ne r.2 sw))
    else
      (sw.insert p fuel).map (fun r => (r.1, .node4 b pt ty nw ne se r.2))
  | .node0 b pt ty, p, fuel =>
    if ty ≠ .Region ∧ pt = p then
      some (.DuplicateEntry, .node0 b pt ty)
    else if ty = .Leaf then
      (collide fuel b pt p).map (fun c => (.Success, c))
    else
      some (.Success, .node0 b p .Leaf)

/-- The root bounds installed by `CQuadTree::Reset` (lines 377-379): the
full scalar domain in both axes. -/
def fullBounds : Bounds := ⟨⟨0, 0⟩, ⟨U - 1, U - 1⟩⟩

/-- The tree root right after `CQuadTree::Reset`: a single empty `Region`
spanning the full domain. -/
def emptyTree : Node := emptyRegion fullBounds

/-- `CQuadTree::Reset` at the tree level: the previous root is discarded
and the root becomes a fresh empty full-domain region. -/
def treeReset (_t : Node) : Node := emptyTree

/-- Insert a list of coordinates left to right (each `Insert` call with
the given collision-loop fuel). -/
def insertList (t : Node) (l : List Coordinate) (fuel : Nat) : Option Node :=
  l.foldlM (fun t p => (t.insert p fuel).map Prod.snd) t

/-- `CQuadTree::SanityCheckChild_Recursive` (lines 387-492) as a boolean:
`true` iff no assertion fires.  Transcribes, in order: the non-sentinel
and ordering asserts on the bounds; for a leaf, childlessness and point
containment; for a region, the zero point, the containment of all four
children's corners, the twenty-four adjacency comparisons, the contained
leaf points, and the recursive checks. -/
def sanityCheck : Node → Bool
  | .node0 b pt ty =>
    (decide (b ≠ ⟨.zero, .zero⟩)) &&
    decide (b.min.x ≤ b.max.x) && decide (b.min.y ≤ b.max.y) &&
    (match ty with
     | .Leaf => b.containsB pt
     | .Region => decide (pt = .zero)
     | .Undefined => false)
  | .node4 b pt ty nw ne se sw =>
    (decide (b ≠ ⟨.zero, .zero⟩)) &&
    decide (b.min.x ≤ b.max.x) && decide (b.min.y ≤ b.max.y) &&
    (match ty with
     | .Leaf => false
     | .Undefined => false
     | .Region =>
       decide (pt = .zero) &&
       b.containsB nw.regionBounds.min && b.containsB nw.regionBounds.max &&
       b.containsB ne.regionBounds.min && b.containsB ne.regionBounds.max &&
       b.containsB se.regionBounds.min && b.containsB se.regionBounds.max &&
       b.containsB sw.regionBounds.min && b.containsB sw.regionBounds.max &&
       decide (nw.regionBounds.min.x < ne.regionBounds.min.x) &&
       decide (nw.regionBounds.min.y = ne.regionBounds.min.y) &&
       decide (nw.regionBounds.max.x < ne.regionBounds.min.x) &&
       decide (nw.regionBounds.max.x < ne.regionBounds.max.x) &&
       decide (nw.regionBounds.min.y < ne.regionBounds.max.y) &&
       decide (nw.regionBounds.max.y = ne.regionBounds.max.y) &&
       decide (ne.regionBounds.min.x = se.regionBounds.min.x) &&
       decide (ne.regionBounds.min.y < se.regionBounds.min.y) &&
       decide (ne.regionBounds.max.x > se.regionBounds.min.x) &&
       decide (ne.regionBounds.max.x = se.regionBounds.max.x) &&
       decide (ne.regionBounds.min.y < se.regionBounds.max.y) &&
       decide (ne.regionBounds.max.y < se.regionBounds.max.y) &&
       decide (se.regionBounds.min.x > sw.regionBounds.min.x) &&
       decide (se.regionBounds.min.y = sw.regionBounds.min.y) &&
       decide (se.regionBounds.max.x > sw.regionBounds.min.x) &&
       decide (se.regionBounds.max.x > sw.regionBounds.max.x) &&
       decide (se.regionBounds.min.y < sw.regionBounds.max.y) &&
       decide (se.regionBounds.max.y = sw.regionBounds.max.y) &&
       decide (sw.regionBounds.min.x = nw.regionBounds.min.x) &&
       decide (sw.regionBounds.min.y > nw.regionBounds.min.y) &&
       decide (sw.regionBounds.max.x > nw.regionBounds.min.x) &&
       decide (sw.regionBounds.max.x = nw.regionBounds.max.x) &&
       decide (sw.regionBounds.min.y > nw.regionBounds.max.y) &&
       decide (sw.regionBounds.max.y > nw.regionBounds.max.y) &&
       (match nw with
        | .node0 _ q .Leaf => b.containsB q
        | .node4 _ q .Leaf _ _ _ _ => b.containsB q
        | _ => true) &&
       sanityCheck nw &&
       (match ne with
        | .node0 _ q .Leaf => b.containsB q
        | .node4 _ q .Leaf _ _ _ _ => b.containsB q
        | _ => true) &&
       sanityCheck ne &&
       (match se with
        | .node0 _ q .Leaf => b.containsB q
        | .node4 _ q .Leaf _ _ _ _ => b.containsB q
        | _ => true) &&
       sanityCheck se &&
       (match sw with
        | .node0 _ q .Leaf => b.containsB q
        | .node4 _ q .Leaf _ _ _ _ => b.containsB q
        | _ => true) &&
       sanityCheck sw)

/-- Reduced form of a `centerMin` component: `mn + (mx - mn) / 2` over
plain naturals (no wrap occurs here, proved in `scalar_center`). -/
def loHalf (mn mx : Nat) : Nat := mn + (mx - mn) / 2

/-- Reduced form of a `centerMax` component: one past `centerMin`, wrapping
mod `2 ^ 64` (the wrap really occurs, exactly when `mn = mx = 2 ^ 64 - 1`). -/
def hiStart (mn mx : Nat) : Nat := (loHalf mn mx + 1) % U

/-- All four components of the bounds are representable in 64 bits. -/
def WFb (b : Bounds) : Prop :=
  b.min.x < U ∧ b.min.y < U ∧ b.max.x < U ∧ b.max.y < U

/-- Structural well-formedness of the trees the code actually builds:
bounds are 64-bit, a childless node is a `Leaf` containing its point or a
`Region`, and the four children of an inner node carry exactly the bounds
`Split` computes from the parent. -/
def WF : Node → Prop
  | .node0 b pt ty => WFb b ∧ (ty = .Leaf ∨ ty = .Region) ∧ (ty = .Leaf → b.containsB pt = true)
  | .node4 b _ _ nw ne se sw =>
      WFb b ∧
      (nw.regionBounds, ne.regionBounds, se.regionBounds, sw.regionBounds) = splitBounds b ∧
      WF nw ∧ WF ne ∧ WF se ∧ WF sw

/-- The split of `b` is a partition: each quadrant is well-ordered and
inside the parent, the quadrants cover exactly the parent, and they are
pairwise disjoint. -/
def splitPartitionOK (b : Bounds) : Prop :=
  (∀ k : Quadrant, (quadOf b k).min.x ≤ (quadOf b k).max.x ∧
    (quadOf b k).min.y ≤ (quadOf b k).max.y) ∧
  (∀ k : Quadrant, b.min.x ≤ (quadOf b k).min.x ∧ b.min.y ≤ (quadOf b k).min.y ∧
    (quadOf b k).max.x ≤ b.max.x ∧ (quadOf b k).max.y ≤ b.max.y) ∧
  (∀ p : Coordinate, b.containsB p = true ↔
    ((quadOf b .nw).containsB p = true ∨ (quadOf b .ne).containsB p = true ∨
     (quadOf b .se).containsB p = true ∨ (quadOf b .sw).containsB p = true)) ∧
  (∀ p : Coordinate, ∀ k1 k2 : Quadrant, k1 ≠ k2 →
    ¬((quadOf b k1).containsB p = true ∧ (quadOf b k2).containsB p = true))

deriving instance DecidableEq for Except

/-! The pool-level model: `CQuadTree`'s allocator state and the tree
operations working on slot indices (the C++ raw pointers).  Pages are
appended to one flat slot array; page boundaries matter only for the
free-list chaining, which is reproduced exactly.  Every C++ `assert` is
surfaced as an `Except.error`. -/

/-- One `CNode` as stored in the pool: the domain fields plus the
intrusive `pPoolNext` link.  Child pointers are slot indices. -/
structure PSlot where
  regionBounds : Bounds
  point : Coordinate
  nw : Option Nat
  ne : Option Nat
  se : Option Nat
  sw : Option Nat
  nodeType : NType
  poolNext : Option Nat
deriving DecidableEq

/-- A value-initialized `CNode()` (what `new CNode[...]()` and the blank
reset in `AllocateNode` produce). -/
def blankSlot : PSlot := ⟨⟨.zero, .zero⟩, .zero, none, none, none, none, .Undefined, none⟩

/-- `CQuadTree`'s state: allocator (`m_pageSize`, `m_pages` flattened,
`m_pPoolHead`, `m_pPoolRoot`) and the tree root pointer. -/
structure PState where
  pageSize : Nat
  nodes : List PSlot
  head : Option Nat
  root : Option Nat
  treeRoot : Option Nat
deriving DecidableEq

/-- Dereference a slot pointer (a dangling pointer reads as blank). -/
def PState.slot (s : PState) (i : Nat) : PSlot := s.nodes.getD i blankSlot

/-- Write through a slot pointer. -/
def PState.setSlot (s : PState) (i : Nat) (v : PSlot) : PState :=
  { s with nodes := s.nodes.set i v }

/-- Slot `i` of a fresh page that starts at global index `n`: chained to
the next slot of the page, the last slot chained to null (lines 500-506). -/
def pageSlot (n ps i : Nat) : PSlot :=
  { blankSlot with poolNext := if i + 1 < ps then some (n + i + 1) else none }

/-- `CQuadTree::AllocatePage` (lines 494-521). -/
def PState.allocatePage (s : PState) : Except String PState :=
  if s.pageSize = 0 then .error "assert: m_pageSize > 0"
  else
    let n := s.nodes.length
    let nodes1 := s.nodes ++ (List.range s.pageSize).map (pageSlot n s.pageSize)
    match s.root, s.head with
    | none, none => .ok { s with nodes := nodes1, root := some n, head := some n }
    | none, some _ => .error "assert: m_pPoolHead == nullptr"
    | some _, some h =>
        .ok { s with nodes := nodes1.set h { nodes1.getD h blankSlot with poolNext := some n } }
    | some _, none => .error "assert: m_pPoolHead != nullptr"

/-- The allocation-triggering condition of `AllocateNode` (line 525):
`m_pPoolHead == nullptr || m_pPoolHead->pPoolNext == nullptr`. -/
def PState.headNeedsPage (s : PState) : Bool :=
  match s.head with
  | none => true
  | some h => ((s.slot h).poolNext).isNone

/-- `CQuadTree::AllocateNode` (lines 523-538): possibly grow by a page,
assert the head and its link, blank the head slot (keeping its pool
link), pop it. -/
def PState.allocateNode (s : PState) : Except String (Nat × PState) := do
  let s ← if s.headNeedsPage then s.allocatePage else .ok s
  match s.head with
  | none => .error "assert: m_pPoolHead != nullptr"
  | some h =>
    match (s.slot h).poolNext with
    | none => .error "assert: m_pPoolHead->pPoolNext != nullptr"
    | some nxt =>
      .ok (h, { s.setSlot h { blankSlot with poolNext := some nxt } with head := some nxt })

/-- `CQuadTree::AllocateLeafNode` + `CNode::InitializeAsLeaf`. -/
def PState.allocateLeafNode (s : PState) (point : Coordinate) (b : Bounds) :
    Except String (Nat × PState) := do
  let (i, s) ← s.allocateNode
  let sl := s.slot i
  .ok (i, s.setSlot i { sl with point := point, regionBounds := b, nodeType := .Leaf })

/-- `CQuadTree::AllocateRegionNode` + `CNode::InitializeAsRegion` (with
its `assert(m_point == CCoordinate())`). -/
def PState.allocateRegionNode (s : PState) (b : Bounds) : Except String (Nat × PState) := do
  let (i, s) ← s.allocateNode
  let sl := s.slot i
  if sl.point = .zero then
    .ok (i, s.setSlot i { sl with regionBounds := b, nodeType := .Region })
  else .error "assert: m_point == CCoordinate()"

/-- `CQuadTree::Reset` (lines 374-380): rewind the free list to the pool
root and allocate a fresh full-domain region as the tree root. -/
def PState.resetP (s : PState) : Except String PState := do
  let s1 := { s with head := s.root }
  let (i, s2) ← s1.allocateRegionNode fullBounds
  .ok { s2 with treeRoot := some i }

/-- The `CQuadTree` constructor (lines 298-306): assert `pageSize > 0`,
then `Reset` from an empty pool. -/
def newTree (pageSize : Nat) : Except String PState :=
  if pageSize = 0 then .error "assert: pageSize > 0"
  else PState.resetP ⟨pageSize, [], none, none, none⟩

/-- `CNode::Find` on the arena (lines 193-227), with fuel for the while
loop. -/
def PState.findFrom (s : PState) : Nat → Nat → Coordinate → Except String (Nat × EFindResult)
  | 0, _, _ => .error "find loop fuel exhausted"
  | fuel + 1, i, p =>
    let sl := s.slot i
    match sl.nw, sl.ne, sl.se, sl.sw with
    | some inw, some ine, some ise, some isw =>
      if (s.slot inw).regionBounds.containsB p then s.findFrom fuel inw p
      else if (s.slot ine).regionBounds.containsB p then s.findFrom fuel ine p
      else if (s.slot ise).regionBounds.containsB p then s.findFrom fuel ise p
      else s.findFrom fuel isw p
    | none, _, _, _ =>
      if sl.nodeType = .Region then .ok (i, .NoEntry)
      else if sl.nodeType = .Leaf then
        (if sl.point = p then .ok (i, .Success) else .ok (i, .NoEntry))
      else .error "assert: m_nodeType == EType::Leaf"
    | some _, _, _, _ => .error "assert: children non-null"

/-- `CQuadTree::Find` (lines 366-372). -/
def PState.findP (s : PState) (fuel : Nat) (p : Coordinate) : Except String EFindResult := do
  match s.treeRoot with
  | none => .error "assert: m_pTreeRoot != nullptr"
  | some r =>
    if (s.slot r).regionBounds.containsB p then do
      let rp ← s.findFrom fuel r p
      .ok rp.2
    else .error "assert: root bounds contain point"

/-- `CNode::Split` on the arena (lines 229-260). -/
def PState.splitP (s : PState) (i : Nat) : Except String PState := do
  let sl := s.slot i
  if sl.nw.isSome || sl.ne.isSome || sl.se.isSome || sl.sw.isSome then
    .error "assert: no children before split"
  else do
    let q := splitBounds sl.regionBounds
    let (inw, s) ← s.allocateRegionNode q.1
    let (ine, s) ← s.allocateRegionNode q.2.1
    let (ise, s) ← s.allocateRegionNode q.2.2.1
    let (isw, s) ← s.allocateRegionNode q.2.2.2
    let sl2 := s.slot i
    .ok (s.setSlot i
      { sl2 with
        nw := some inw
        ne := some ine
        se := some ise
        sw := some isw
        nodeType := .Region
        point := .zero })

/-- `CNode::ContainingSubRegion` on the arena (lines 262-294). -/
def PState.containingSubRegion (s : PState) (i : Nat) (p : Coordinate) :
    Except String (Option Nat) :=
  let sl := s.slot i
  if ¬ sl.regionBounds.containsB p then .ok none
  else
    match sl.nw with
    | some inw =>
      match sl.ne, sl.se, sl.sw with
      | some ine, some ise, some isw =>
        if sl.nodeType ≠ NType.Region then .error "assert: m_nodeType == EType::Region"
        else if (s.slot inw).regionBounds.containsB p then .ok (some inw)
        else if (s.slot ine).regionBounds.containsB p then .ok (some ine)
        else if (s.slot ise).regionBounds.containsB p then .ok (some ise)
        else if (s.slot isw).regionBounds.containsB p then .ok (some isw)
        else .error "assert: m_pSouthWest contains point"
      | _, _, _ => .error "assert: children non-null"
    | none => .ok none

/-- The collision loop of `CQuadTree::Insert` on the arena (lines
336-342), with fuel for the do/while loop. -/
def pCollideLoop : Nat → PState → Nat → Coordinate → Coordinate →
    Except String (PState × Nat × Nat)
  | 0, _, _, _, _ => .error "collision loop fuel exhausted"
  | fuel + 1, s, iSub, existingPoint, point => do
    let s ← s.splitP iSub
    let eSub ← s.containingSubRegion iSub existingPoint
    let nSub ← s.containingSubRegion iSub point
    match eSub, nSub with
    | some e, some n2 =>
      if e = n2 then pCollideLoop fuel s n2 existingPoint point
      else .ok (s, e, n2)
    | _, _ => .error "assert: sub-regions non-null"

/-- `CQuadTree::Insert` on the arena (lines 308-364). -/
def PState.insertP (s : PState) (p : Coordinate) (ffind floop : Nat) :
    Except String (EInsertResult × PState) := do
  match s.treeRoot with
  | none => .error "assert: m_pTreeRoot != nullptr"
  | some r =>
    if ¬ (s.slot r).regionBounds.containsB p then .error "assert: root bounds contain point"
    else do
      let ir ← s.findFrom ffind r p
      let iFound := ir.1
      if ir.2 = .Success then
        if (s.slot iFound).point = p then .ok (.DuplicateEntry, s)
        else .error "assert: found point equals query"
      else
        if (s.slot iFound).nodeType = .Leaf then do
          let sl := s.slot iFound
          if sl.nw.isSome || sl.ne.isSome || sl.se.isSome || sl.sw.isSome then
            .error "assert: terminal node has no children"
          else do
            let er ← pCollideLoop floop s iFound sl.point p
            let s1 := er.1
            let s2 := s1.setSlot er.2.1
              { s1.slot er.2.1 with nodeType := .Leaf, point := sl.point }
            let s3 := s2.setSlot er.2.2
              { s2.slot er.2.2 with nodeType := .Leaf, point := p }
            .ok (.Success, s3)
        else
          if (s.slot iFound).nodeType = .Region then
            .ok (.Success, s.setSlot iFound
              { s.slot iFound with nodeType := .Leaf, point := p })
          else .error "assert: m_nodeType == EType::Region"

/-- `CQuadTree::SanityCheckChild_Recursive` on the arena (lines 387-492),
with fuel for the recursion; `true` iff no assertion fires. -/
def PState.sanityFrom (s : PState) : Nat → Option Nat → Bool
  | _, none => false
  | 0, some _ => false
  | fuel + 1, some i =>
    let sl := s.slot i
    (decide (sl.regionBounds ≠ ⟨.zero, .zero⟩)) &&
    decide (sl.regionBounds.min.x ≤ sl.regionBounds.max.x) &&
    decide (sl.regionBounds.min.y ≤ sl.regionBounds.max.y) &&
    (match sl.nodeType with
     | .Leaf =>
       sl.nw.isNone && sl.ne.isNone && sl.se.isNone && sl.sw.isNone &&
       sl.regionBounds.containsB sl.point
     | .Undefined => false
     | .Region =>
       decide (sl.point = Coordinate.zero) &&
       (match sl.nw, sl.ne, sl.se, sl.sw with
        | some inw, some ine, some ise, some isw =>
          sl.regionBounds.containsB (s.slot inw).regionBounds.min &&
          sl.regionBounds.containsB (s.slot inw).regionBounds.max &&
          sl.regionBounds.containsB (s.slot ine).regionBounds.min &&
          sl.regionBounds.containsB (s.slot ine).regionBounds.max &&
          sl.regionBounds.containsB (s.slot ise).regionBounds.min &&
          sl.regionBounds.containsB (s.slot ise).regionBounds.max &&
          sl.regionBounds.containsB (s.slot isw).regionBounds.min &&
          sl.regionBounds.containsB (s.slot isw).regionBounds.max &&
          decide ((s.slot inw).regionBounds.min.x < (s.slot ine).regionBounds.min.x) &&
          decide ((s.slot inw).regionBounds.min.y = (s.slot ine).regionBounds.min.y) &&
          decide ((s.slot inw).regionBounds.max.x < (s.slot ine).regionBounds.min.x) &&
          decide ((s.slot inw).regionBounds.max.x < (s.slot ine).regionBounds.max.x) &&
          decide ((s.slot inw).regionBounds.min.y < (s.slot ine).regionBounds.max.y) &&
          decide ((s.slot inw).regionBounds.max.y = (s.slot ine).regionBounds.max.y) &&
          decide ((s.slot ine).regionBounds.min.x = (s.slot ise).regionBounds.min.x) &&
          decide ((s.slot ine).regionBounds.min.y < (s.slot ise).regionBounds.min.y) &&
          decide ((s.slot ine).regionBounds.max.x > (s.slot ise).regionBounds.min.x) &&
          decide ((s.slot ine).regionBounds.max.x = (s.slot ise).regionBounds.max.x) &&
          decide ((s.slot ine).regionBounds.min.y < (s.slot ise).regionBounds.max.y) &&
          decide ((s.slot ine).regionBounds.max.y < (s.slot ise).regionBounds.max.y) &&
          decide ((s.slot ise).regionBounds.min.x > (s.slot isw).regionBounds.min.x) &&
          decide ((s.slot ise).regionBounds.min.y = (s.slot isw).regionBounds.min.y) &&
          decide ((s.slot ise).regionBounds.max.x > (s.slot isw).regionBounds.min.x) &&
          decide ((s.slot ise).regionBounds.max.x > (s.slot isw).regionBounds.max.x) &&
          decide ((s.slot ise).regionBounds.min.y < (s.slot isw).regionBounds.max.y) &&
          decide ((s.slot ise).regionBounds.max.y = (s.slot isw).regionBounds.max.y) &&
          decide ((s.slot isw).regionBounds.min.x = (s.slot inw).regionBounds.min.x) &&
          decide ((s.slot isw).regionBounds.min.y > (s.slot inw).regionBounds.min.y) &&
          decide ((s.slot isw).regionBounds.max.x > (s.slot inw).regionBounds.min.x) &&
          decide ((s.slot isw).regionBounds.max.x = (s.slot inw).regionBounds.max.x) &&
          decide ((s.slot isw).regionBounds.min.y > (s.slot inw).regionBounds.max.y) &&
          decide ((s.slot isw).regionBounds.max.y > (s.slot inw).regionBounds.max.y) &&
          (if (s.slot inw).nodeType = .Leaf then
            sl.regionBounds.containsB (s.slot inw).point else true) &&
          s.sanityFrom fuel (some inw) &&
          (if (s.slot ine).nodeType = .Leaf then
            sl.regionBounds.containsB (s.slot ine).point else true) &&
          s.sanityFrom fuel (some ine) &&
          (if (s.slot ise).nodeType = .Leaf then
            sl.regionBounds.containsB (s.slot ise).point else true) &&
          s.sanityFrom fuel (some ise) &&
          (if (s.slot isw).nodeType = .Leaf then
            sl.regionBounds.containsB (s.slot isw).point else true) &&
          s.sanityFrom fuel (some isw)
        | none, ine, ise, isw => ine.isNone && ise.isNone && isw.isNone
        | some _, _, _, _ => false))

/-- `CQuadTree::SanityCheck` (lines 382-385). -/
def PState.sanityP (s : PState) (fuel : Nat) : Bool := s.sanityFrom fuel s.treeRoot

/-- Build a tree with the given page size and insert the list of points
left to right. -/
def runInserts (ps ffind floop : Nat) (l : List Coordinate) : Except String PState := do
  let s ← newTree ps
  l.foldlM (fun s p => do
    let rs ← s.insertP p ffind floop
    .ok rs.2) s

/-- The observable outcome of a `Find` after building and filling a tree. -/
def findOutcome (ps ffind floop : Nat) (l : List Coordinate) (q : Coordinate) :
    Except String EFindResult := do
  let s ← runInserts ps ffind floop l
  s.findP ffind q

/-- The observable outcome of `SanityCheck` after building and filling a
tree. -/
def sanityOutcome (ps ffind floop fsan : Nat) (l : List Coordinate) :
    Except String Bool := do
  let s ← runInserts ps ffind floop l
  .ok (s.sanityP fsan)

/-- A concrete populated tree (page size 4, one point inserted), used to
witness the duplicate-insertion theorem. -/
def c3state : PState :=
  match runInserts 4 70 70 [⟨2, 2⟩] with
  | .ok s => s
  | .error _ => ⟨0, [], none, none, none⟩

/-- Abbreviation for the pool after `AllocatePage` has appended one
fresh page (the `m_pages.push_back` of lines 497-506), before any link
into it is made; only used to phrase the allocator lemmas. -/
def PState.withPage (s : PState) : PState :=
  { s with nodes := s.nodes ++ (List.range s.pageSize).map (pageSlot s.nodes.length s.pageSize) }

/-- The domain part of a slot: everything the tree logic of `CNode`
reads and writes, i.e. all fields except the intrusive free-list link
`pPoolNext`, which is the only part of a slot the page size can
influence. -/
def dpSlot (sl : PSlot) : PSlot := { sl with poolNext := none }

/-- Relating the outcomes of two allocator runs: identical assertion
messages on failure, related states on success. -/
def exceptRel (R : α → β → Prop) : Except String α → Except String β → Prop
  | .error e, .error f => e = f
  | .ok a, .ok b => R a b
  | _, _ => False

/-- Kernel equivalence of two pool states built with different page
sizes: the three pointers agree and every slot has the same domain part
(the free-list links and the pool capacities may differ). -/
structure KEq (s1 s2 : PState) : Prop where
  head : s1.head = s2.head
  root : s1.root = s2.root
  treeRoot : s1.treeRoot = s2.treeRoot
  slots : ∀ i, dpSlot (s1.slot i) = dpSlot (s2.slot i)

/-- The allocator invariant maintained by every tree operation: the page
size is positive, the pool is non-empty, the free-list links form the
contiguous chain `i -> i + 1` ending at the last slot, the head is a
valid slot index, the pool root is slot `0`, the tree root (when set) is
a valid slot index, and every child pointer stored in a slot is a valid
slot index. -/
structure INV (s : PState) : Prop where
  pspos : 0 < s.pageSize
  poslen : 0 < s.nodes.length
  chain : ∀ i, i + 1 < s.nodes.length → (s.slot i).poolNext = some (i + 1)
  lastnone : (s.slot (s.nodes.length - 1)).poolNext = none
  headlt : ∃ k, s.head = some k ∧ k < s.nodes.length
  root0 : s.root = some 0
  rootlt : ∀ r, s.treeRoot = some r → r < s.nodes.length
  childlt : ∀ i j, (s.slot i).nw = some j ∨ (s.slot i).ne = some j ∨
    (s.slot i).se = some j ∨ (s.slot i).sw = some j → j < s.nodes.length

/-! Theorems.  First the scalar-level facts about the wrap-around
arithmetic of `Split`, then the quadrant geometry, the collision loop, the
insertion step lemma, and finally the claim theorems. -/

theorem U_pos : 0 < U := by
  unfold U
  positivity

theorem wsub_mod {a b : Nat} (h : b ≤ a) (ha : a < U) : (a + U - b) % U = a - b := by
  have h1 : a + U - b = (a - b) + U := by omega
  rw [h1, Nat.add_mod_right, Nat.mod_eq_of_lt (by omega)]

theorem loHalf_le {mn mx : Nat} (h : mn ≤ mx) : loHalf mn mx ≤ mx := by
  have h1 : (mx - mn) / 2 ≤ mx - mn := Nat.div_le_self _ _
  unfold loHalf
  omega

theorem loHalf_ge (mn mx : Nat) : mn ≤ loHalf mn mx := Nat.le_add_right _ _

theorem loHalf_lt {mn mx : Nat} (h : mn < mx) : loHalf mn mx < mx := by
  have h1 : (mx - mn) / 2 < mx - mn := Nat.div_lt_self (by omega) (by omega)
  unfold loHalf
  omega

theorem loHalf_lt_U {mn mx : Nat} (h1 : mn < U) (h2 : mx < U) : loHalf mn mx < U := by
  have h3 : (mx - mn) / 2 ≤ mx - mn := Nat.div_le_self _ _
  unfold loHalf
  omega

theorem hiStart_lt_U (mn mx : Nat) : hiStart mn mx < U := Nat.mod_lt _ U_pos

theorem hiStart_eq {mn mx : Nat} (h : mn < mx) (hU : mx < U) :
    hiStart mn mx = loHalf mn mx + 1 := by
  have h1 : loHalf mn mx < mx := loHalf_lt h
  unfold hiStart
  rw [Nat.mod_eq_of_lt (by omega)]

theorem scalar_center {mn mx : Nat} (h : mn ≤ mx) (hU : mx < U) :
    (mn + (mx + U - mn) % U / 2) % U = loHalf mn mx := by
  rw [wsub_mod h hU]
  have h1 : (mx - mn) / 2 ≤ mx - mn := Nat.div_le_self _ _
  rw [Nat.mod_eq_of_lt (by omega)]
  rfl

theorem containsB_iff {b : Bounds} {p : Coordinate} :
    b.containsB p = true ↔
      b.min.x ≤ p.x ∧ b.min.y ≤ p.y ∧ p.x ≤ b.max.x ∧ p.y ≤ b.max.y := by
  simp [Bounds.containsB, and_assoc]

theorem splitBounds_eq {b : Bounds} (hx : b.min.x ≤ b.max.x) (hy : b.min.y ≤ b.max.y)
    (hxU : b.max.x < U) (hyU : b.max.y < U) :
    splitBounds b =
      (⟨b.min, ⟨loHalf b.min.x b.max.x, loHalf b.min.y b.max.y⟩⟩,
       ⟨⟨hiStart b.min.x b.max.x, b.min.y⟩, ⟨b.max.x, loHalf b.min.y b.max.y⟩⟩,
       ⟨⟨hiStart b.min.x b.max.x, hiStart b.min.y b.max.y⟩, b.max⟩,
       ⟨⟨b.min.x, hiStart b.min.y b.max.y⟩, ⟨loHalf b.min.x b.max.x, b.max.y⟩⟩) := by
  unfold splitBounds
  simp only [Coordinate.add, Coordinate.sub, Coordinate.div]
  rw [scalar_center hx hxU, scalar_center hy hyU]
  rfl

theorem coverage_axis {mn v mx : Nat} (h1 : mn ≤ v) (h2 : v ≤ mx) (hU : mx < U) :
    v ≤ loHalf mn mx ∨ hiStart mn mx ≤ v := by
  by_cases hv : v ≤ loHalf mn mx
  · exact Or.inl hv
  · have h3 : mn ≤ loHalf mn mx := loHalf_ge mn mx
    have h4 : mn < mx := by omega
    rw [hiStart_eq h4 hU]
    omega

theorem quad_cover {b : Bounds} {p : Coordinate} (hwf : WFb b) (hc : b.containsB p = true) :
    (splitBounds b).1.containsB p = true ∨ (splitBounds b).2.1.containsB p = true ∨
    (splitBounds b).2.2.1.containsB p = true ∨ (splitBounds b).2.2.2.containsB p = true := by
  obtain ⟨_, _, hxU, hyU⟩ := hwf
  rw [containsB_iff] at hc
  obtain ⟨h1, h2, h3, h4⟩ := hc
  rw [splitBounds_eq (le_trans h1 h3) (le_trans h2 h4) hxU hyU]
  rcases coverage_axis h1 h3 hxU with hx | hx <;>
    rcases coverage_axis h2 h4 hyU with hy | hy
  · exact Or.inl (containsB_iff.2 ⟨h1, h2, hx, hy⟩)
  · exact Or.inr (Or.inr (Or.inr (containsB_iff.2 ⟨h1, hy, hx, h4⟩)))
  · exact Or.inr (Or.inl (containsB_iff.2 ⟨hx, h2, h3, hy⟩))
  · exact Or.inr (Or.inr (Or.inl (containsB_iff.2 ⟨hx, hy, h3, h4⟩)))

theorem quadIndex_contains {b : Bounds} {p : Coordinate} (hwf : WFb b)
    (hc : b.containsB p = true) :
    (quadAt (splitBounds b).1 (splitBounds b).2.1 (splitBounds b).2.2.1 (splitBounds b).2.2.2
      (quadIndex (splitBounds b).1 (splitBounds b).2.1 (splitBounds b).2.2.1
        (splitBounds b).2.2.2 p)).containsB p = true := by
  have h := quad_cover hwf hc
  unfold quadIndex
  split_ifs with h1 h2 h3 <;> simp only [quadAt]
  · exact h1
  · exact h2
  · exact h3
  · rcases h with h | h | h | h
    · exact absurd h h1
    · exact absurd h h2
    · exact absurd h h3
    · exact h

theorem WFb_quad {b : Bounds} (hwf : WFb b) (hx : b.min.x ≤ b.max.x)
    (hy : b.min.y ≤ b.max.y) (i : Quadrant) :
    WFb (quadAt (splitBounds b).1 (splitBounds b).2.1 (splitBounds b).2.2.1
      (splitBounds b).2.2.2 i) := by
  obtain ⟨ha, hb, hc, hd⟩ := hwf
  rw [splitBounds_eq hx hy hc hd]
  cases i <;> simp only [quadAt] <;>
    exact ⟨by first
      | exact ha
      | exact hb
      | exact hc
      | exact hd
      | exact loHalf_lt_U ha hc
      | exact loHalf_lt_U hb hd
      | exact hiStart_lt_U _ _,
    by first
      | exact ha
      | exact hb
      | exact hc
      | exact hd
      | exact loHalf_lt_U ha hc
      | exact loHalf_lt_U hb hd
      | exact hiStart_lt_U _ _,
    by first
      | exact ha
      | exact hb
      | exact hc
      | exact hd
      | exact loHalf_lt_U ha hc
      | exact loHalf_lt_U hb hd
      | exact hiStart_lt_U _ _,
    by first
      | exact ha
      | exact hb
      | exact hc
      | exact hd
      | exact loHalf_lt_U ha hc
      | exact loHalf_lt_U hb hd
      | exact hiStart_lt_U _ _⟩

theorem quad_extent_x {b : Bounds} (hx : b.min.x ≤ b.max.x) (hy : b.min.y ≤ b.max.y)
    (hxU : b.max.x < U) (hyU : b.max.y < U) (hlt : b.min.x < b.max.x) (i : Quadrant) :
    (quadAt (splitBounds b).1 (splitBounds b).2.1 (splitBounds b).2.2.1
        (splitBounds b).2.2.2 i).max.x -
      (quadAt (splitBounds b).1 (splitBounds b).2.1 (splitBounds b).2.2.1
        (splitBounds b).2.2.2 i).min.x ≤ (b.max.x - b.min.x) / 2 := by
  rw [splitBounds_eq hx hy hxU hyU]
  cases i <;> simp only [quadAt]
  · unfold loHalf; omega
  · rw [hiStart_eq hlt hxU]; unfold loHalf; omega
  · rw [hiStart_eq hlt hxU]; unfold loHalf; omega
  · unfold loHalf; omega

theorem quad_extent_y {b : Bounds} (hx : b.min.x ≤ b.max.x) (hy : b.min.y ≤ b.max.y)
    (hxU : b.max.x < U) (hyU : b.max.y < U) (hlt : b.min.y < b.max.y) (i : Quadrant) :
    (quadAt (splitBounds b).1 (splitBounds b).2.1 (splitBounds b).2.2.1
        (splitBounds b).2.2.2 i).max.y -
      (quadAt (splitBounds b).1 (splitBounds b).2.1 (splitBounds b).2.2.1
        (splitBounds b).2.2.2 i).min.y ≤ (b.max.y - b.min.y) / 2 := by
  rw [splitBounds_eq hx hy hxU hyU]
  cases i <;> simp only [quadAt]
  · unfold loHalf; omega
  · unfold loHalf; omega
  · rw [hiStart_eq hlt hyU]; unfold loHalf; omega
  · rw [hiStart_eq hlt hyU]; unfold loHalf; omega

theorem findResult_node4 (b : Bounds) (pt : Coordinate) (ty : NType)
    (nw ne se sw : Node) (q : Coordinate) :
    (Node.node4 b pt ty nw ne se sw).findResult q =
      if nw.regionBounds.containsB q then nw.findResult q
      else if ne.regionBounds.containsB q then ne.findResult q
      else if se.regionBounds.containsB q then se.findResult q
      else sw.findResult q := by
  have hd : (Node.node4 b pt ty nw ne se sw).descend q =
      if nw.regionBounds.containsB q then nw.descend q
      else if ne.regionBounds.containsB q then ne.descend q
      else if se.regionBounds.containsB q then se.descend q
      else sw.descend q := by
    simp only [Node.descend]
  unfold Node.findResult
  rw [hd]
  split_ifs <;> rfl

theorem emptyRegion_find (b : Bounds) (q : Coordinate) :
    (emptyRegion b).findResult q = .NoEntry := rfl

theorem collide_bounds {fuel : Nat} {b : Bounds} {pt p : Coordinate} {c : Node}
    (h : collide fuel b pt p = some c) : c.regionBounds = b := by
  cases fuel with
  | zero => exact absurd h (by simp [collide])
  | succ fuel =>
    unfold collide at h
    rcases hpe : pickQuad b (splitBounds b).1 (splitBounds b).2.1 (splitBounds b).2.2.1
        (splitBounds b).2.2.2 pt with _ | i <;>
      rcases hpp : pickQuad b (splitBounds b).1 (splitBounds b).2.1 (splitBounds b).2.2.1
        (splitBounds b).2.2.2 p with _ | j <;>
      simp only [hpe, hpp] at h
    · exact absurd h (by simp)
    · exact absurd h (by simp)
    · exact absurd h (by simp)
    · split_ifs at h
      · rcases Option.map_eq_some'.1 h with ⟨c0, _, hc0⟩
        rw [← hc0]
        rfl
      · rw [← Option.some_inj.1 h]
        rfl

theorem WF_emptyRegion {b : Bounds} (hb : WFb b) : WF (emptyRegion b) :=
  ⟨hb, Or.inr rfl, fun h => absurd h (by simp)⟩

theorem node0_find (b : Bounds) (w : Coordinate) (ty : NType) (q : Coordinate) :
    (Node.node0 b w ty).findResult q =
      if ty = .Region then .NoEntry else if w = q then .Success else .NoEntry := by
  simp only [Node.findResult, Node.descend]

theorem pickQuad_some {b nwB neB seB swB : Bounds} {p : Coordinate}
    (hc : b.containsB p = true) :
    pickQuad b nwB neB seB swB p = some (quadIndex nwB neB seB swB p) := by
  simp [pickQuad, hc]

theorem chain_select (b : Bounds) (pt : Coordinate) (ty : NType)
    (n1 n2 n3 n4 : Bounds) (f : Quadrant → Node)
    (hb : ∀ k, (f k).regionBounds = quadAt n1 n2 n3 n4 k) (q : Coordinate) :
    (Node.node4 b pt ty (f .nw) (f .ne) (f .se) (f .sw)).findResult q =
      (f (quadIndex n1 n2 n3 n4 q)).findResult q := by
  rw [findResult_node4, hb .nw, hb .ne, hb .se]
  simp only [quadAt]
  unfold quadIndex
  split_ifs <;> rfl


theorem idxOf_contains {b : Bounds} {p : Coordinate} (hwf : WFb b)
    (hc : b.containsB p = true) : (quadOf b (idxOf b p)).containsB p = true :=
  quadIndex_contains hwf hc

theorem WFb_quadOf {b : Bounds} (hwf : WFb b) (hx : b.min.x ≤ b.max.x)
    (hy : b.min.y ≤ b.max.y) (k : Quadrant) : WFb (quadOf b k) :=
  WFb_quad hwf hx hy k

theorem quadOf_extent_x {b : Bounds} (hx : b.min.x ≤ b.max.x) (hy : b.min.y ≤ b.max.y)
    (hxU : b.max.x < U) (hyU : b.max.y < U) (hlt : b.min.x < b.max.x) (i : Quadrant) :
    (quadOf b i).max.x - (quadOf b i).min.x ≤ (b.max.x - b.min.x) / 2 :=
  quad_extent_x hx hy hxU hyU hlt i

theorem quadOf_extent_y {b : Bounds} (hx : b.min.x ≤ b.max.x) (hy : b.min.y ≤ b.max.y)
    (hxU : b.max.x < U) (hyU : b.max.y < U) (hlt : b.min.y < b.max.y) (i : Quadrant) :
    (quadOf b i).max.y - (quadOf b i).min.y ≤ (b.max.y - b.min.y) / 2 :=
  quad_extent_y hx hy hxU hyU hlt i

theorem chain_selectOf (b0 : Bounds) (pt0 : Coordinate) (ty : NType) (b : Bounds)
    (f : Quadrant → Node) (hb : ∀ k, (f k).regionBounds = quadOf b k) (q : Coordinate) :
    (Node.node4 b0 pt0 ty (f .nw) (f .ne) (f .se) (f .sw)).findResult q =
      (f (idxOf b q)).findResult q :=
  chain_select b0 pt0 ty _ _ _ _ f hb q

theorem collide_succ_same {fuel : Nat} {b : Bounds} {pt p : Coordinate}
    (hpt : b.containsB pt = true) (hp : b.containsB p = true)
    (hij : idxOf b pt = idxOf b p) :
    collide (fuel + 1) b pt p =
      (collide fuel (quadOf b (idxOf b pt)) pt p).map (fun c =>
        Node.node4 b .zero .Region (kidsOf b (idxOf b pt) c .nw)
          (kidsOf b (idxOf b pt) c .ne) (kidsOf b (idxOf b pt) c .se)
          (kidsOf b (idxOf b pt) c .sw)) := by
  unfold idxOf at hij
  simp only [collide, quadOf, idxOf, kidsOf, pickQuad_some hpt, pickQuad_some hp, if_pos hij]

theorem collide_succ_diff {fuel : Nat} {b : Bounds} {pt p : Coordinate}
    (hpt : b.containsB pt = true) (hp : b.containsB p = true)
    (hij : ¬ idxOf b pt = idxOf b p) :
    collide (fuel + 1) b pt p =
      some (Node.node4 b .zero .Region
        (kidsOf2 b (idxOf b pt) (idxOf b p)
          (.node0 (quadOf b (idxOf b pt)) pt .Leaf)
          (.node0 (quadOf b (idxOf b p)) p .Leaf) .nw)
        (kidsOf2 b (idxOf b pt) (idxOf b p)
          (.node0 (quadOf b (idxOf b pt)) pt .Leaf)
          (.node0 (quadOf b (idxOf b p)) p .Leaf) .ne)
        (kidsOf2 b (idxOf b pt) (idxOf b p)
          (.node0 (quadOf b (idxOf b pt)) pt .Leaf)
          (.node0 (quadOf b (idxOf b p)) p .Leaf) .se)
        (kidsOf2 b (idxOf b pt) (idxOf b p)
          (.node0 (quadOf b (idxOf b pt)) pt .Leaf)
          (.node0 (quadOf b (idxOf b p)) p .Leaf) .sw)) := by
  unfold idxOf at hij
  simp only [collide, quadOf, idxOf, kidsOf2, pickQuad_some hpt, pickQuad_some hp, if_neg hij]

theorem collide_spec : ∀ (fuel : Nat) (b : Bounds) (pt p : Coordinate),
    pt ≠ p → b.containsB pt = true → b.containsB p = true → WFb b →
    (pt.x ≠ p.x → b.max.x - b.min.x < 2 ^ fuel) →
    (pt.y ≠ p.y → b.max.y - b.min.y < 2 ^ fuel) →
    ∃ t, collide fuel b pt p = some t ∧ t.regionBounds = b ∧ WF t ∧
      ∀ q, t.findResult q =
        if q = pt then .Success else if q = p then .Success else .NoEntry := by
  intro fuel
  induction fuel with
  | zero =>
    intro b pt p hne hcpt hcp _ hx hy
    exfalso
    obtain ⟨hq1, hq2, hq3, hq4⟩ := containsB_iff.1 hcpt
    obtain ⟨hr1, hr2, hr3, hr4⟩ := containsB_iff.1 hcp
    have hxx : pt.x = p.x := by
      by_cases h : pt.x = p.x
      · exact h
      · have h2 := hx h
        simp only [pow_zero] at h2
        omega
    have hyy : pt.y = p.y := by
      by_cases h : pt.y = p.y
      · exact h
      · have h2 := hy h
        simp only [pow_zero] at h2
        omega
    exact hne (by cases pt; cases p; simp_all)
  | succ fuel ih =>
    intro b pt p hne hcpt hcp hwf hx hy
    obtain ⟨hq1, hq2, hq3, hq4⟩ := containsB_iff.1 hcpt
    obtain ⟨hr1, hr2, hr3, hr4⟩ := containsB_iff.1 hcp
    have hbx : b.min.x ≤ b.max.x := le_trans hq1 hq3
    have hby : b.min.y ≤ b.max.y := le_trans hq2 hq4
    have hcc_pt := idxOf_contains hwf hcpt
    have hcc_p := idxOf_contains hwf hcp
    by_cases hij : idxOf b pt = idxOf b p
    · -- both points fall into the same quadrant: the loop iterates
      rw [← hij] at hcc_p
      have hwfc := WFb_quadOf hwf hbx hby (idxOf b pt)
      have hx' : pt.x ≠ p.x →
          (quadOf b (idxOf b pt)).max.x - (quadOf b (idxOf b pt)).min.x < 2 ^ fuel := by
        intro h
        have h1 := hx h
        have hlt : b.min.x < b.max.x := by omega
        have h2 := quadOf_extent_x hbx hby hwf.2.2.1 hwf.2.2.2 hlt (idxOf b pt)
        have h3 : 2 ^ (fuel + 1) = 2 * 2 ^ fuel := by rw [pow_succ]; ring
        omega
      have hy' : pt.y ≠ p.y →
          (quadOf b (idxOf b pt)).max.y - (quadOf b (idxOf b pt)).min.y < 2 ^ fuel := by
        intro h
        have h1 := hy h
        have hlt : b.min.y < b.max.y := by omega
        have h2 := quadOf_extent_y hbx hby hwf.2.2.1 hwf.2.2.2 hlt (idxOf b pt)
        have h3 : 2 ^ (fuel + 1) = 2 * 2 ^ fuel := by rw [pow_succ]; ring
        omega
      obtain ⟨c, hc, hcb, hcwf, hcfind⟩ := ih _ pt p hne hcc_pt hcc_p hwfc hx' hy'
      have hkb : ∀ k, (kidsOf b (idxOf b pt) c k).regionBounds = quadOf b k := by
        intro k
        unfold kidsOf kidsWith
        by_cases hk : k = idxOf b pt
        · rw [if_pos hk, hcb, hk]
        · rw [if_neg hk]
          rfl
      have hkwf : ∀ k, WF (kidsOf b (idxOf b pt) c k) := by
        intro k
        unfold kidsOf kidsWith
        by_cases hk : k = idxOf b pt
        · rw [if_pos hk]
          exact hcwf
        · rw [if_neg hk]
          exact WF_emptyRegion (WFb_quadOf hwf hbx hby k)
      rw [collide_succ_same hcpt hcp hij] at *
      rw [hc]
      refine ⟨_, rfl, rfl, ?_, ?_⟩
      · exact ⟨hwf, by rw [hkb .nw, hkb .ne, hkb .se, hkb .sw]; rfl,
          hkwf .nw, hkwf .ne, hkwf .se, hkwf .sw⟩
      · intro q
        rw [chain_selectOf b Coordinate.zero NType.Region b _ hkb q]
        by_cases hqpt : q = pt
        · subst hqpt
          unfold kidsOf kidsWith
          rw [if_pos rfl, hcfind q]
        · by_cases hqp : q = p
          · subst hqp
            rw [← hij]
            unfold kidsOf kidsWith
            rw [if_pos rfl, hcfind q]
          · unfold kidsOf kidsWith
            split_ifs with hk
            · rw [hcfind q, if_neg hqpt, if_neg hqp]
            · rw [emptyRegion_find]
    · -- the two points separate now
      have hkb2 : ∀ k, (kidsOf2 b (idxOf b pt) (idxOf b p)
          (.node0 (quadOf b (idxOf b pt)) pt .Leaf)
          (.node0 (quadOf b (idxOf b p)) p .Leaf) k).regionBounds = quadOf b k := by
        intro k
        unfold kidsOf2 kidsWith2
        by_cases hk1 : k = idxOf b pt
        · rw [if_pos hk1, hk1]
          rfl
        · rw [if_neg hk1]
          by_cases hk2 : k = idxOf b p
          · rw [if_pos hk2, hk2]
            rfl
          · rw [if_neg hk2]
            rfl
      have hkwf2 : ∀ k, WF (kidsOf2 b (idxOf b pt) (idxOf b p)
          (.node0 (quadOf b (idxOf b pt)) pt .Leaf)
          (.node0 (quadOf b (idxOf b p)) p .Leaf) k) := by
        intro k
        unfold kidsOf2 kidsWith2
        by_cases hk1 : k = idxOf b pt
        · rw [if_pos hk1]
          exact ⟨WFb_quadOf hwf hbx hby _, Or.inl rfl, fun _ => hcc_pt⟩
        · rw [if_neg hk1]
          by_cases hk2 : k = idxOf b p
          · rw [if_pos hk2]
            exact ⟨WFb_quadOf hwf hbx hby _, Or.inl rfl, fun _ => hcc_p⟩
          · rw [if_neg hk2]
            exact WF_emptyRegion (WFb_quadOf hwf hbx hby k)
      rw [collide_succ_diff hcpt hcp hij]
      refine ⟨_, rfl, rfl, ?_, ?_⟩
      · exact ⟨hwf, by rw [hkb2 .nw, hkb2 .ne, hkb2 .se, hkb2 .sw]; rfl,
          hkwf2 .nw, hkwf2 .ne, hkwf2 .se, hkwf2 .sw⟩
      · intro q
        rw [chain_selectOf b Coordinate.zero NType.Region b _ hkb2 q]
        by_cases hqpt : q = pt
        · subst hqpt
          unfold kidsOf2 kidsWith2
          rw [if_pos rfl, node0_find]
          simp
        · by_cases hqp : q = p
          · subst hqp
            unfold kidsOf2 kidsWith2
            rw [if_neg (fun h => hij h.symm), if_pos rfl, node0_find]
            simp [hqpt]
          · unfold kidsOf2 kidsWith2
            split_ifs with hk1 hk2
            · rw [node0_find]
              simp [Ne.symm hqpt, hqpt, hqp]
            · rw [node0_find]
              simp [Ne.symm hqp, hqpt, hqp]
            · rw [emptyRegion_find]

theorem emptyTree_WF : WF emptyTree := by
  have h : U - 1 < U := by
    have := U_pos
    omega
  exact ⟨⟨U_pos, U_pos, h, h⟩, Or.inr rfl, fun h => absurd h (by simp)⟩

theorem fullBounds_contains {p : Coordinate} (hx : p.x < U) (hy : p.y < U) :
    fullBounds.containsB p = true := by
  rw [containsB_iff]
  exact ⟨Nat.zero_le _, Nat.zero_le _, Nat.le_sub_one_of_lt hx, Nat.le_sub_one_of_lt hy⟩

theorem insert_node4_select (b0 : Bounds) (pt0 : Coordinate) (ty0 : NType)
    (f : Quadrant → Node) (hfb : ∀ k, (f k).regionBounds = quadOf b0 k)
    (p : Coordinate) (fuel : Nat) :
    (Node.node4 b0 pt0 ty0 (f .nw) (f .ne) (f .se) (f .sw)).insert p fuel =
      ((f (idxOf b0 p)).insert p fuel).map (fun r =>
        (r.1, Node.node4 b0 pt0 ty0 (kidsUpd f (idxOf b0 p) r.2 .nw)
          (kidsUpd f (idxOf b0 p) r.2 .ne) (kidsUpd f (idxOf b0 p) r.2 .se)
          (kidsUpd f (idxOf b0 p) r.2 .sw))) := by
  simp only [Node.insert]
  rw [hfb .nw, hfb .ne, hfb .se]
  unfold idxOf quadIndex kidsUpd
  simp only [quadOf, quadAt]
  split_ifs <;> simp_all

theorem insert_spec (t : Node) : ∀ (p : Coordinate) (fuel : Nat), WF t →
    t.regionBounds.containsB p = true → 64 ≤ fuel →
    ∃ r t', t.insert p fuel = some (r, t') ∧
      t'.regionBounds = t.regionBounds ∧ WF t' ∧
      (t.findResult p = .Success → r = .DuplicateEntry ∧ t' = t) ∧
      (t.findResult p ≠ .Success → r = .Success) ∧
      ∀ q, t'.findResult q = if q = p then .Success else t.findResult q := by
  induction t with
  | node0 b0 pt0 ty0 =>
    intro p fuel hwft hcont hfuel
    obtain ⟨hwfb, hlr, hleaf⟩ := hwft
    simp only [Node.insert]
    by_cases hdup0 : ty0 ≠ NType.Region ∧ pt0 = p
    · rw [if_pos hdup0]
      have hfS : (Node.node0 b0 pt0 ty0).findResult p = .Success := by
        rw [node0_find, if_neg hdup0.1, if_pos hdup0.2]
      refine ⟨.DuplicateEntry, _, rfl, rfl, ⟨hwfb, hlr, hleaf⟩, fun _ => ⟨rfl, rfl⟩,
        fun hns => absurd hfS hns, ?_⟩
      intro q
      by_cases hq : q = p
      · subst hq
        rw [if_pos rfl, hfS]
      · rw [if_neg hq]
    · rw [if_neg hdup0]
      by_cases hl : ty0 = NType.Leaf
      · rw [if_pos hl]
        have hne : pt0 ≠ p := fun h => hdup0 ⟨by simp [hl], h⟩
        have hcl : b0.containsB pt0 = true := hleaf hl
        have h64 : U ≤ 2 ^ fuel := by
          have : U = 2 ^ 64 := rfl
          rw [this]
          exact Nat.pow_le_pow_right (by omega) hfuel
        have hexx : b0.max.x - b0.min.x < 2 ^ fuel := by
          have := hwfb.2.2.1
          omega
        have hexy : b0.max.y - b0.min.y < 2 ^ fuel := by
          have := hwfb.2.2.2
          omega
        obtain ⟨c, hc, hcb, hcwf, hcfind⟩ := collide_spec fuel b0 pt0 p hne hcl hcont hwfb
          (fun _ => hexx) (fun _ => hexy)
        rw [hc, Option.map_some']
        have hfNS : (Node.node0 b0 pt0 ty0).findResult p = .NoEntry := by
          rw [node0_find, if_neg (by simp [hl] : ¬ ty0 = NType.Region), if_neg hne]
        refine ⟨.Success, c, rfl, hcb, hcwf, ?_, fun _ => rfl, ?_⟩
        · intro hS
          rw [hfNS] at hS
          exact absurd hS (by simp)
        · intro q
          rw [hcfind q, node0_find, if_neg (by simp [hl] : ¬ ty0 = NType.Region)]
          by_cases hq : q = p
          · subst hq
            rw [if_neg (fun h => hne h.symm), if_pos rfl, if_pos rfl]
          · rw [if_neg hq]
            by_cases hq2 : q = pt0
            · rw [if_pos hq2, if_pos hq2.symm, if_neg hq]
            · rw [if_neg hq2, if_neg hq, if_neg (fun h => hq2 h.symm)]
      · rw [if_neg hl]
        have hreg : ty0 = NType.Region := hlr.resolve_left hl
        have hfNS : (Node.node0 b0 pt0 ty0).findResult p = .NoEntry := by
          rw [node0_find, if_pos hreg]
        refine ⟨.Success, _, rfl, rfl, ⟨hwfb, Or.inl rfl, fun _ => hcont⟩, ?_,
          fun _ => rfl, ?_⟩
        · intro hS
          rw [hfNS] at hS
          exact absurd hS (by simp)
        · intro q
          rw [node0_find, node0_find, if_pos hreg,
            if_neg (by simp : ¬ NType.Leaf = NType.Region)]
          by_cases hq : q = p
          · subst hq
            rw [if_pos rfl]
          · rw [if_neg (fun h => hq h.symm), if_neg hq]
  | node4 b0 pt0 ty0 nw ne se sw ihnw ihne ihse ihsw =>
    intro p fuel hwft hcont hfuel
    obtain ⟨hwfb, htup, hnw, hne2, hse2, hsw2⟩ := hwft
    have hfb : ∀ k, (quadChild nw ne se sw k).regionBounds = quadOf b0 k := by
      intro k
      cases k
      · exact congrArg Prod.fst htup
      · exact congrArg (fun x => x.2.1) htup
      · exact congrArg (fun x => x.2.2.1) htup
      · exact congrArg (fun x => x.2.2.2) htup
    have hfwf : ∀ k, WF (quadChild nw ne se sw k) := by
      intro k
      cases k
      exacts [hnw, hne2, hse2, hsw2]
    have hfih : ∀ k, ∀ (p : Coordinate) (fuel : Nat), WF (quadChild nw ne se sw k) →
        (quadChild nw ne se sw k).regionBounds.containsB p = true → 64 ≤ fuel →
        ∃ r t', (quadChild nw ne se sw k).insert p fuel = some (r, t') ∧
          t'.regionBounds = (quadChild nw ne se sw k).regionBounds ∧ WF t' ∧
          ((quadChild nw ne se sw k).findResult p = .Success →
            r = .DuplicateEntry ∧ t' = quadChild nw ne se sw k) ∧
          ((quadChild nw ne se sw k).findResult p ≠ .Success → r = .Success) ∧
          ∀ q, t'.findResult q =
            if q = p then .Success else (quadChild nw ne se sw k).findResult q := by
      intro k
      cases k
      exacts [ihnw, ihne, ihse, ihsw]
    have hrw : Node.node4 b0 pt0 ty0 nw ne se sw =
        Node.node4 b0 pt0 ty0 (quadChild nw ne se sw .nw) (quadChild nw ne se sw .ne)
          (quadChild nw ne se sw .se) (quadChild nw ne se sw .sw) := rfl
    rw [hrw]
    rw [insert_node4_select b0 pt0 ty0 (quadChild nw ne se sw) hfb p fuel]
    have hck : (quadChild nw ne se sw (idxOf b0 p)).regionBounds.containsB p = true := by
      rw [hfb]
      exact idxOf_contains hwfb hcont
    obtain ⟨r, c', hins, hb', hwf', hdup, hsucc, hfind⟩ :=
      hfih (idxOf b0 p) p fuel (hfwf _) hck hfuel
    rw [hins, Option.map_some']
    have hkb' : ∀ k, (kidsUpd (quadChild nw ne se sw) (idxOf b0 p) c' k).regionBounds =
        quadOf b0 k := by
      intro k
      unfold kidsUpd
      by_cases hk : k = idxOf b0 p
      · rw [if_pos hk, hb', hfb, hk]
      · rw [if_neg hk]
        exact hfb k
    have hkwf' : ∀ k, WF (kidsUpd (quadChild nw ne se sw) (idxOf b0 p) c' k) := by
      intro k
      unfold kidsUpd
      by_cases hk : k = idxOf b0 p
      · rw [if_pos hk]
        exact hwf'
      · rw [if_neg hk]
        exact hfwf k
    refine ⟨r, _, rfl, rfl, ?_, ?_, ?_, ?_⟩
    · exact ⟨hwfb, by rw [hkb' .nw, hkb' .ne, hkb' .se, hkb' .sw]; rfl,
        hkwf' .nw, hkwf' .ne, hkwf' .se, hkwf' .sw⟩
    · intro hS
      rw [chain_selectOf b0 pt0 ty0 b0 (quadChild nw ne se sw) hfb p] at hS
      obtain ⟨hr, hc'⟩ := hdup hS
      refine ⟨hr, ?_⟩
      have hupd : ∀ k, kidsUpd (quadChild nw ne se sw) (idxOf b0 p) c' k =
          quadChild nw ne se sw k := by
        intro k
        unfold kidsUpd
        by_cases hk : k = idxOf b0 p
        · rw [if_pos hk, hc', hk]
        · rw [if_neg hk]
      rw [hupd .nw, hupd .ne, hupd .se, hupd .sw]
    · intro hns
      rw [chain_selectOf b0 pt0 ty0 b0 (quadChild nw ne se sw) hfb p] at hns
      exact hsucc hns
    · intro q
      rw [chain_selectOf b0 pt0 ty0 b0 _ hkb' q,
        chain_selectOf b0 pt0 ty0 b0 (quadChild nw ne se sw) hfb q]
      by_cases hq : q = p
      · subst hq
        unfold kidsUpd
        rw [if_pos rfl, hfind q, if_pos rfl]
      · rw [if_neg hq]
        unfold kidsUpd
        by_cases hk : idxOf b0 q = idxOf b0 p
        · rw [if_pos hk, hfind q, if_neg hq, hk]
        · rw [if_neg hk]

theorem insertList_spec : ∀ (l : List Coordinate) (t : Node), WF t →
    t.regionBounds = fullBounds → (∀ p ∈ l, p.x < U ∧ p.y < U) →
    ∃ t', insertList t l 64 = some t' ∧ WF t' ∧ t'.regionBounds = fullBounds ∧
      ∀ q, t'.findResult q = if q ∈ l then .Success else t.findResult q := by
  intro l
  induction l with
  | nil =>
    intro t hwf hb _
    refine ⟨t, rfl, hwf, hb, fun q => ?_⟩
    simp
  | cons p rest ih =>
    intro t hwf hb hall
    have hp := hall p (List.mem_cons_self p rest)
    have hcont : t.regionBounds.containsB p = true := by
      rw [hb]
      exact fullBounds_contains hp.1 hp.2
    obtain ⟨r, t1, hins, hb1, hwf1, _, _, hfind1⟩ := insert_spec t p 64 hwf hcont (le_refl 64)
    have hstep : insertList t (p :: rest) 64 = insertList t1 rest 64 := by
      unfold insertList
      rw [List.foldlM_cons]
      simp [hins]
    obtain ⟨t', hrun, hwf', hb', hfind'⟩ := ih t1 hwf1 (by rw [hb1, hb])
      (fun x hx => hall x (List.mem_cons_of_mem p hx))
    refine ⟨t', by rw [hstep]; exact hrun, hwf', hb', ?_⟩
    intro q
    rw [hfind' q, hfind1 q]
    by_cases h1 : q ∈ rest <;> by_cases h2 : q = p <;>
      simp [List.mem_cons, h1, h2]

theorem insert_result : ∀ (t : Node) (p : Coordinate) (fuel : Nat) (r : EInsertResult)
    (t' : Node), t.insert p fuel = some (r, t') → r = .Success ∨ r = .DuplicateEntry := by
  intro t
  induction t with
  | node0 b0 pt0 ty0 =>
    intro p fuel r t' h
    simp only [Node.insert] at h
    split_ifs at h
    · simp only [Option.some_inj, Prod.mk.injEq] at h
      exact Or.inr h.1.symm
    · rcases Option.map_eq_some'.1 h with ⟨c, _, heq⟩
      injection heq with h1 _
      exact Or.inl h1.symm
    · simp only [Option.some_inj, Prod.mk.injEq] at h
      exact Or.inl h.1.symm
  | node4 b0 pt0 ty0 nw ne se sw ihnw ihne ihse ihsw =>
    intro p fuel r t' h
    simp only [Node.insert] at h
    split_ifs at h
    · rcases Option.map_eq_some'.1 h with ⟨⟨r0, c⟩, hin, heq⟩
      injection heq with h1 _
      exact h1 ▸ ihnw p fuel r0 c hin
    · rcases Option.map_eq_some'.1 h with ⟨⟨r0, c⟩, hin, heq⟩
      injection heq with h1 _
      exact h1 ▸ ihne p fuel r0 c hin
    · rcases Option.map_eq_some'.1 h with ⟨⟨r0, c⟩, hin, heq⟩
      injection heq with h1 _
      exact h1 ▸ ihse p fuel r0 c hin
    · rcases Option.map_eq_some'.1 h with ⟨⟨r0, c⟩, hin, heq⟩
      injection heq with h1 _
      exact h1 ▸ ihsw p fuel r0 c hin

/-- C1: for every list of pairwise-distinct 64-bit coordinates inserted
since the last `Reset`, `Find` returns `Success` on each inserted
coordinate and `NoEntry` on every 64-bit coordinate not in the list. -/
theorem c1_round_trip (l : List Coordinate) (hl : ∀ p ∈ l, p.x < U ∧ p.y < U)
    (hdist : l.Pairwise (· ≠ ·)) :
    ∃ t, insertList emptyTree l 64 = some t ∧
      ∀ q : Coordinate, q.x < U → q.y < U →
        (q ∈ l → t.findResult q = .Success) ∧ (q ∉ l → t.findResult q = .NoEntry) := by
  obtain ⟨t, hrun, _, _, hfind⟩ := insertList_spec l emptyTree emptyTree_WF rfl hl
  refine ⟨t, hrun, ?_⟩
  intro q _ _
  constructor
  · intro hq
    rw [hfind q, if_pos hq]
  · intro hq
    rw [hfind q, if_neg hq]
    exact emptyRegion_find fullBounds q

/-- Witness for C1 at the concrete list `[(1,2), (3,4)]` and query `(3,4)`. -/
theorem c1_round_trip_witness :
    (∀ p ∈ [(⟨1, 2⟩ : Coordinate), ⟨3, 4⟩], p.x < U ∧ p.y < U) ∧
    ([(⟨1, 2⟩ : Coordinate), ⟨3, 4⟩].Pairwise (· ≠ ·)) ∧
    (∃ t, insertList emptyTree [(⟨1, 2⟩ : Coordinate), ⟨3, 4⟩] 64 = some t ∧
      ∀ q : Coordinate, q.x < U → q.y < U →
        (q ∈ [(⟨1, 2⟩ : Coordinate), ⟨3, 4⟩] → t.findResult q = .Success) ∧
        (q ∉ [(⟨1, 2⟩ : Coordinate), ⟨3, 4⟩] → t.findResult q = .NoEntry)) :=
  ⟨by decide, by decide, c1_round_trip _ (by decide) (by decide)⟩

/-- C5: two distinct points colliding in one leaf cell are separated by
the repeated split-and-redescend loop within 64 iterations: with fuel 64
the loop returns (it never exhausts the fuel), and both points are found
in the resulting subtree, each in its own leaf. -/
theorem c5_collision_terminates (b : Bounds) (pt p : Coordinate) (hne : pt ≠ p)
    (hpt : b.containsB pt = true) (hp : b.containsB p = true) (hwf : WFb b) :
    ∃ t, collide 64 b pt p = some t ∧ t.findResult pt = .Success ∧
      t.findResult p = .Success := by
  have hU : U = 2 ^ 64 := rfl
  have hexx : b.max.x - b.min.x < 2 ^ 64 := by
    have := hwf.2.2.1
    omega
  have hexy : b.max.y - b.min.y < 2 ^ 64 := by
    have := hwf.2.2.2
    omega
  obtain ⟨t, hc, _, _, hfind⟩ := collide_spec 64 b pt p hne hpt hp hwf
    (fun _ => hexx) (fun _ => hexy)
  refine ⟨t, hc, ?_, ?_⟩
  · rw [hfind pt, if_pos rfl]
  · rw [hfind p, if_neg (fun h => hne h.symm), if_pos rfl]

/-- Witness for C5 at the full root bounds and the points `(0,0)`, `(1,1)`
(which need all 64 iterations). -/
theorem c5_collision_terminates_witness :
    ((⟨0, 0⟩ : Coordinate) ≠ ⟨1, 1⟩) ∧
    fullBounds.containsB ⟨0, 0⟩ = true ∧ fullBounds.containsB ⟨1, 1⟩ = true ∧
    WFb fullBounds ∧
    (∃ t, collide 64 fullBounds ⟨0, 0⟩ ⟨1, 1⟩ = some t ∧
      t.findResult ⟨0, 0⟩ = .Success ∧ t.findResult ⟨1, 1⟩ = .Success) :=
  ⟨by decide, by decide, by decide, by unfold WFb; decide,
    c5_collision_terminates fullBounds ⟨0, 0⟩ ⟨1, 1⟩ (by decide) (by decide) (by decide)
      (by unfold WFb; decide)⟩

/-- C6: after `Reset` the root is a single empty `Region` spanning the
full 64-bit domain in both axes, and `Find` returns `NoEntry` for every
coordinate. -/
theorem c6_reset_clears :
    (∀ (t : Node) (q : Coordinate), (treeReset t).findResult q = .NoEntry) ∧
    (∀ t : Node, treeReset t =
      Node.node0 ⟨⟨0, 0⟩, ⟨U - 1, U - 1⟩⟩ Coordinate.zero NType.Region) :=
  ⟨fun _ q => emptyRegion_find fullBounds q, fun _ => rfl⟩

/-- C8: neither `Insert` nor `Find` ever produces `OutOfRegionBounds`:
`Find` returns `Success` or `NoEntry`, and whenever the insertion loop
returns, the result is `Success` or `DuplicateEntry`. -/
theorem c8_oob_unreachable (t : Node) (p : Coordinate) (fuel : Nat) :
    (t.findResult p = .Success ∨ t.findResult p = .NoEntry) ∧
    (match t.insert p fuel with
     | none => True
     | some (r, _) => r = .Success ∨ r = .DuplicateEntry) := by
  constructor
  · unfold Node.findResult
    rcases t.descend p with ⟨b0, pt0, ty0⟩
    dsimp only
    split_ifs <;> simp
  · rcases h : t.insert p fuel with _ | ⟨r, t'⟩
    · trivial
    · exact insert_result t p fuel r t' h

/-- C7: evaluation at the failing input.  Inserting the two distinct
points `(0,1)` and `(1,0)` (in either order) produces a tree on which
`Find` succeeds on exactly the inserted points — the order-independent
reachable set the claim describes — but `SanityCheck` fails on it (the
split of the cell `[(0,0),(1,1)]` creates a child whose bounds equal the
reserved sentinel `((0,0),(0,0))`, firing the assert at line 390), so the
claim that `SanityCheck` passes is violated by the code. -/
theorem c7_sanity_fails_on_valid_tree :
    (insertList emptyTree [⟨0, 1⟩, ⟨1, 0⟩] 64).map sanityCheck = some false ∧
    (insertList emptyTree [⟨1, 0⟩, ⟨0, 1⟩] 64).map sanityCheck = some false ∧
    (insertList emptyTree [⟨0, 1⟩, ⟨1, 0⟩] 64).map
      (fun t => (t.findResult ⟨0, 1⟩, t.findResult ⟨1, 0⟩, t.findResult ⟨0, 0⟩)) =
      some (.Success, .Success, .NoEntry) ∧
    (insertList emptyTree [⟨1, 0⟩, ⟨0, 1⟩] 64).map
      (fun t => (t.findResult ⟨0, 1⟩, t.findResult ⟨1, 0⟩, t.findResult ⟨0, 0⟩)) =
      some (.Success, .Success, .NoEntry) := by
  decide

/-- C10: evaluation at the failing input.  On a tree containing only
`(1,1)` — which passes `SanityCheck` — inserting `(0,0)` returns
`Success`, then `Find((0,0))` returns `Success` and a second insert
returns `DuplicateEntry`, exactly as the claim says for the functional
behaviour; but `SanityCheck` fails afterwards, because the final split
creates the NW cell with bounds `((0,0),(0,0))`, the reserved sentinel
checked by the assert at line 390. -/
theorem c10_origin_usable_but_sanity_fails :
    (insertList emptyTree [⟨1, 1⟩] 64).map sanityCheck = some true ∧
    (insertList emptyTree [⟨1, 1⟩] 64).map (fun t => t.findResult ⟨0, 0⟩) =
      some .NoEntry ∧
    ((insertList emptyTree [⟨1, 1⟩] 64).bind
      (fun t => (t.insert ⟨0, 0⟩ 64).map Prod.fst)) = some .Success ∧
    (insertList emptyTree [⟨1, 1⟩, ⟨0, 0⟩] 64).map (fun t => t.findResult ⟨0, 0⟩) =
      some .Success ∧
    (insertList emptyTree [⟨1, 1⟩, ⟨0, 0⟩] 64).map (fun t => t.findResult ⟨1, 1⟩) =
      some .Success ∧
    ((insertList emptyTree [⟨1, 1⟩, ⟨0, 0⟩] 64).bind
      (fun t => (t.insert ⟨0, 0⟩ 64).map Prod.fst)) = some .DuplicateEntry ∧
    (insertList emptyTree [⟨1, 1⟩, ⟨0, 0⟩] 64).map sanityCheck = some false := by
  decide

/-- C4: for bounds with `min ≤ max` component-wise (64-bit) that span at
least two units in each dimension (`max.x > min.x`, `max.y > min.y`), the
four quadrant bounds computed by `Split` are each well-ordered, each
contained in the parent, pairwise disjoint, and their union is exactly
the parent bounds. -/
theorem c4_split_partition (b : Bounds) (hwf : WFb b) (hx : b.min.x < b.max.x)
    (hy : b.min.y < b.max.y) : splitPartitionOK b := by
  have hxle := Nat.le_of_lt hx
  have hyle := Nat.le_of_lt hy
  have hsb := splitBounds_eq hxle hyle hwf.2.2.1 hwf.2.2.2
  have hX := hiStart_eq hx hwf.2.2.1
  have hY := hiStart_eq hy hwf.2.2.2
  have hlx1 := loHalf_ge b.min.x b.max.x
  have hlx2 := loHalf_lt hx
  have hly1 := loHalf_ge b.min.y b.max.y
  have hly2 := loHalf_lt hy
  refine ⟨?_, ?_, ?_, ?_⟩
  · intro k
    unfold quadOf
    rw [hsb]
    cases k <;> simp only [quadAt] <;> exact ⟨by omega, by omega⟩
  · intro k
    unfold quadOf
    rw [hsb]
    cases k <;> simp only [quadAt] <;> exact ⟨by omega, by omega, by omega, by omega⟩
  · intro p
    unfold quadOf
    rw [hsb]
    simp only [quadAt, containsB_iff]
    constructor
    · intro h
      omega
    · intro h
      omega
  · intro p k1 k2 hne
    unfold quadOf
    rw [hsb]
    cases k1 <;> cases k2 <;>
      first
        | exact absurd rfl hne
        | (simp only [quadAt, containsB_iff]
           intro hcc
           omega)

/-- Witness for C4 at the concrete bounds `((0,0),(3,5))`. -/
theorem c4_split_partition_witness :
    WFb ⟨⟨0, 0⟩, ⟨3, 5⟩⟩ ∧ (⟨⟨0, 0⟩, ⟨3, 5⟩⟩ : Bounds).min.x < (⟨⟨0, 0⟩, ⟨3, 5⟩⟩ : Bounds).max.x ∧
    (⟨⟨0, 0⟩, ⟨3, 5⟩⟩ : Bounds).min.y < (⟨⟨0, 0⟩, ⟨3, 5⟩⟩ : Bounds).max.y ∧
    splitPartitionOK ⟨⟨0, 0⟩, ⟨3, 5⟩⟩ :=
  ⟨by unfold WFb; decide, by decide, by decide,
    c4_split_partition _ (by unfold WFb; decide) (by decide) (by decide)⟩

theorem findFrom_success : ∀ (s : PState) (fuel i : Nat) (p : Coordinate) (j : Nat),
    s.findFrom fuel i p = .ok (j, .Success) → (s.slot j).point = p := by
  intro s fuel
  induction fuel with
  | zero =>
    intro i p j h
    exact absurd h (by simp [PState.findFrom])
  | succ fuel ih =>
    intro i p j h
    simp only [PState.findFrom] at h
    split at h
    · split_ifs at h <;> exact ih _ _ _ h
    · split_ifs at h <;> simp_all
    · exact absurd h (by simp)

/-- C2: evaluation at the failing input.  Constructing the tree with
`pageSize = 1` makes the very first allocation (the root region allocated
by `Reset` inside the constructor) fire the assert
`m_pPoolHead->pPoolNext != nullptr` of `AllocateNode`, because the fresh
one-slot page's only slot carries a null pool link; so for `pageSize = 1`
construction fails, against the claim.  With `pageSize = 2` the same
construction succeeds. -/
theorem c2_pageSize_one_construction_asserts :
    newTree 1 = Except.error "assert: m_pPoolHead->pPoolNext != nullptr" ∧
    ∃ s, newTree 2 = Except.ok s :=
  ⟨by decide, ⟨_, rfl⟩⟩

/-- C3: if the inserted coordinate is already present (`Find` returns
`Success`), `Insert` returns `DuplicateEntry` and the entire state —
tree and pool — after the call is identical to the state before it. -/
theorem c3_duplicate_no_mutation (s : PState) (p : Coordinate) (ffind floop : Nat)
    (h : s.findP ffind p = .ok .Success) :
    s.insertP p ffind floop = .ok (.DuplicateEntry, s) := by
  unfold PState.findP at h
  split at h
  · exact absurd h (by simp)
  · rename_i r heq
    by_cases hc : (s.slot r).regionBounds.containsB p = true
    · rw [if_pos hc] at h
      rcases hf : s.findFrom ffind r p with e | ⟨i, res⟩
      · rw [hf] at h
        exact absurd h (by simp [Except.bind, Bind.bind])
      · rw [hf] at h
        simp only [Bind.bind, Except.bind, Except.ok.injEq] at h
        subst h
        have hpt := findFrom_success s ffind r p i hf
        unfold PState.insertP
        split
        · rename_i heq2
          rw [heq] at heq2
          exact absurd heq2 (by simp)
        · rename_i r2 heq2
          rw [heq] at heq2
          injection heq2 with heq3
          subst heq3
          rw [if_neg (fun hn => hn hc), hf]
          simp only [Bind.bind, Except.bind]
          rw [if_pos trivial, if_pos hpt]
    · rw [if_neg hc] at h
      exact absurd h (by simp)

/-- Witness for C3 at a concrete populated tree. -/
theorem c3_duplicate_no_mutation_witness :
    c3state.findP 70 ⟨2, 2⟩ = .ok .Success ∧
    c3state.insertP ⟨2, 2⟩ 70 70 = .ok (.DuplicateEntry, c3state) :=
  ⟨by decide, c3_duplicate_no_mutation c3state ⟨2, 2⟩ 70 70 (by decide)⟩

/-! Basic facts about slots, slot writes, and the domain part of a slot,
used by the page-size-equivalence development. -/

theorem ebind_ok {α β : Type} (a : α) (f : α → Except String β) :
    (Except.ok a >>= f) = f a := rfl

theorem ebind_error {α β : Type} (e : String) (f : α → Except String β) :
    ((Except.error e : Except String α) >>= f) = .error e := rfl

theorem slot_oob (s : PState) (i : Nat) (h : s.nodes.length ≤ i) : s.slot i = blankSlot := by
  unfold PState.slot
  rw [List.getD_eq_getElem?_getD, List.getElem?_eq_none h]
  rfl

theorem setSlot_pageSize (s : PState) (i : Nat) (v : PSlot) :
    (s.setSlot i v).pageSize = s.pageSize := rfl

theorem setSlot_head (s : PState) (i : Nat) (v : PSlot) :
    (s.setSlot i v).head = s.head := rfl

theorem setSlot_root (s : PState) (i : Nat) (v : PSlot) :
    (s.setSlot i v).root = s.root := rfl

theorem setSlot_treeRoot (s : PState) (i : Nat) (v : PSlot) :
    (s.setSlot i v).treeRoot = s.treeRoot := rfl

theorem setSlot_length (s : PState) (i : Nat) (v : PSlot) :
    (s.setSlot i v).nodes.length = s.nodes.length := by
  unfold PState.setSlot
  exact List.length_set s.nodes i v

theorem slot_set (s : PState) (i j : Nat) (v : PSlot) :
    (s.setSlot i v).slot j =
      if j = i ∧ i < s.nodes.length then v else s.slot j := by
  unfold PState.setSlot PState.slot
  by_cases hj : j = i
  · subst hj
    by_cases hi : j < s.nodes.length
    · rw [if_pos ⟨rfl, hi⟩, List.getD_eq_getElem?_getD, List.getElem?_set_eq hi]
      rfl
    · rw [if_neg (fun hc => hi hc.2), List.set_eq_of_length_le (Nat.le_of_not_lt hi)]
  · rw [if_neg (fun hc => hj hc.1), List.getD_eq_getElem?_getD,
      List.getD_eq_getElem?_getD, List.getElem?_set_ne (fun hc => hj hc.symm)]

theorem slot_set_self (s : PState) (i : Nat) (v : PSlot) (h : i < s.nodes.length) :
    (s.setSlot i v).slot i = v := by
  rw [slot_set, if_pos ⟨rfl, h⟩]

theorem slot_set_other (s : PState) (i j : Nat) (v : PSlot) (h : j ≠ i) :
    (s.setSlot i v).slot j = s.slot j := by
  rw [slot_set, if_neg (fun hc => h hc.1)]

theorem dp_regionBounds {a b : PSlot} (h : dpSlot a = dpSlot b) :
    a.regionBounds = b.regionBounds := by
  have hc := congrArg PSlot.regionBounds h
  exact hc

theorem dp_point {a b : PSlot} (h : dpSlot a = dpSlot b) :     a.point = b.point := by
  have hc := congrArg PSlot.point h
  exact hc

theorem dp_nw {a b : PSlot} (h : dpSlot a = dpSlot b) :     a.nw = b.nw := by
  have hc := congrArg PSlot.nw h
  exact hc

theorem dp_ne {a b : PSlot} (h : dpSlot a = dpSlot b) :     a.ne = b.ne := by
  have hc := congrArg PSlot.ne h
  exact hc

theorem dp_se {a b : PSlot} (h : dpSlot a = dpSlot b) :     a.se = b.se := by
  have hc := congrArg PSlot.se h
  exact hc

theorem dp_sw {a b : PSlot} (h : dpSlot a = dpSlot b) :     a.sw = b.sw := by
  have hc := congrArg PSlot.sw h
  exact hc

theorem dp_nodeType {a b : PSlot} (h : dpSlot a = dpSlot b) :     a.nodeType = b.nodeType := by
  have hc := congrArg PSlot.nodeType h
  exact hc

theorem dp_congr {a b : PSlot} (hrb : a.regionBounds = b.regionBounds)
    (hpt : a.point = b.point) (hnw : a.nw = b.nw) (hne : a.ne = b.ne)
    (hse : a.se = b.se) (hsw : a.sw = b.sw) (hty : a.nodeType = b.nodeType) :
    dpSlot a = dpSlot b := by
  cases a
  cases b
  simp_all [dpSlot]

theorem getD_page (n ps j : Nat) :
    ((List.range ps).map (pageSlot n ps)).getD j blankSlot =
      if j < ps then pageSlot n ps j else blankSlot := by
  rw [List.getD_eq_getElem?_getD, List.getElem?_map]
  by_cases hj : j < ps
  · rw [List.getElem?_range hj, if_pos hj]
    rfl
  · rw [List.getElem?_eq_none (by simpa using Nat.le_of_not_lt hj), if_neg hj]
    rfl

theorem getD_append (l1 l2 : List PSlot) (j : Nat) :
    (l1 ++ l2).getD j blankSlot =
      if j < l1.length then l1.getD j blankSlot
      else l2.getD (j - l1.length) blankSlot := by
  rw [List.getD_eq_getElem?_getD, List.getElem?_append]
  by_cases hj : j < l1.length
  · rw [if_pos hj, if_pos hj, List.getD_eq_getElem?_getD]
  · rw [if_neg hj, if_neg hj, List.getD_eq_getElem?_getD]

theorem pageSlot_nw (n ps i : Nat) : (pageSlot n ps i).nw = none := rfl

theorem dp_pageSlot (n ps i : Nat) : dpSlot (pageSlot n ps i) = dpSlot blankSlot := rfl

/-! The tree-walking operations are read-only and consult only the
domain part of each slot, so kernel-equivalent states give them
identical outcomes; and under the allocator invariant they only ever
return valid slot indices. -/

theorem findFrom_keq (s1 s2 : PState) (h : KEq s1 s2) :
    ∀ (fuel i : Nat) (p : Coordinate), s1.findFrom fuel i p = s2.findFrom fuel i p := by
  intro fuel
  induction fuel with
  | zero => intro i p; rfl
  | succ n ih =>
    intro i p
    simp only [PState.findFrom]
    rw [dp_nw (h.slots i), dp_ne (h.slots i), dp_se (h.slots i), dp_sw (h.slots i),
      dp_nodeType (h.slots i), dp_point (h.slots i)]
    rcases (s2.slot i).nw with _ | inw
    · rfl
    rcases (s2.slot i).ne with _ | ine
    · rfl
    rcases (s2.slot i).se with _ | ise
    · rfl
    rcases (s2.slot i).sw with _ | isw
    · rfl
    dsimp only
    rw [dp_regionBounds (h.slots inw), dp_regionBounds (h.slots ine),
      dp_regionBounds (h.slots ise)]
    split_ifs <;> exact ih _ _

theorem containingSubRegion_keq (s1 s2 : PState) (h : KEq s1 s2) (i : Nat) (p : Coordinate) :
    s1.containingSubRegion i p = s2.containingSubRegion i p := by
  have hrb : ∀ j, (s1.slot j).regionBounds = (s2.slot j).regionBounds :=
    fun j => dp_regionBounds (h.slots j)
  have hnw : ∀ j, (s1.slot j).nw = (s2.slot j).nw := fun j => dp_nw (h.slots j)
  have hne : ∀ j, (s1.slot j).ne = (s2.slot j).ne := fun j => dp_ne (h.slots j)
  have hse : ∀ j, (s1.slot j).se = (s2.slot j).se := fun j => dp_se (h.slots j)
  have hsw : ∀ j, (s1.slot j).sw = (s2.slot j).sw := fun j => dp_sw (h.slots j)
  have hty : ∀ j, (s1.slot j).nodeType = (s2.slot j).nodeType :=
    fun j => dp_nodeType (h.slots j)
  simp only [PState.containingSubRegion, hrb, hnw, hne, hse, hsw, hty]

theorem sanityFrom_keq (s1 s2 : PState) (h : KEq s1 s2) :
    ∀ (fuel : Nat) (o : Option Nat), s1.sanityFrom fuel o = s2.sanityFrom fuel o := by
  intro fuel
  induction fuel with
  | zero => intro o; cases o <;> rfl
  | succ n ih =>
    intro o
    cases o with
    | none => rfl
    | some i =>
      simp only [PState.sanityFrom]
      rw [dp_regionBounds (h.slots i), dp_nodeType (h.slots i), dp_point (h.slots i),
        dp_nw (h.slots i), dp_ne (h.slots i), dp_se (h.slots i), dp_sw (h.slots i)]
      cases (s2.slot i).nodeType with
      | Leaf => rfl
      | Undefined => rfl
      | Region =>
      rcases (s2.slot i).nw with _ | inw
      · rcases (s2.slot i).ne with _ | ine <;> rcases (s2.slot i).se with _ | ise <;>
          rcases (s2.slot i).sw with _ | isw <;> rfl
      rcases (s2.slot i).ne with _ | ine
      · rcases (s2.slot i).se with _ | ise <;> rcases (s2.slot i).sw with _ | isw <;> rfl
      rcases (s2.slot i).se with _ | ise
      · rcases (s2.slot i).sw with _ | isw <;> rfl
      rcases (s2.slot i).sw with _ | isw
      · rfl
      dsimp only
      rw [dp_regionBounds (h.slots inw), dp_regionBounds (h.slots ine),
        dp_regionBounds (h.slots ise), dp_regionBounds (h.slots isw),
        dp_nodeType (h.slots inw), dp_nodeType (h.slots ine),
        dp_nodeType (h.slots ise), dp_nodeType (h.slots isw),
        dp_point (h.slots inw), dp_point (h.slots ine),
        dp_point (h.slots ise), dp_point (h.slots isw),
        ih (some inw), ih (some ine), ih (some ise), ih (some isw)]

theorem findP_keq (s1 s2 : PState) (h : KEq s1 s2) (fuel : Nat) (p : Coordinate) :
    s1.findP fuel p = s2.findP fuel p := by
  unfold PState.findP
  rw [h.treeRoot]
  rcases s2.treeRoot with _ | r
  · rfl
  dsimp only
  rw [dp_regionBounds (h.slots r), findFrom_keq s1 s2 h fuel r p]

theorem sanityP_keq (s1 s2 : PState) (h : KEq s1 s2) (fuel : Nat) :
    s1.sanityP fuel = s2.sanityP fuel := by
  unfold PState.sanityP
  rw [h.treeRoot, sanityFrom_keq s1 s2 h fuel s2.treeRoot]

theorem findFrom_lt (s : PState) (hI : INV s) :
    ∀ (fuel i : Nat) (p : Coordinate) (j : Nat) (r : EFindResult),
      i < s.nodes.length → s.findFrom fuel i p = .ok (j, r) →
      j < s.nodes.length := by
  intro fuel
  induction fuel with
  | zero =>
    intro i p j r hi hf
    exact absurd hf (by simp [PState.findFrom])
  | succ n ih =>
    intro i p j r hi hf
    simp only [PState.findFrom] at hf
    split at hf
    · rename_i inw ine ise isw hnw hne hse hsw
      have h1 : inw < s.nodes.length := hI.childlt i inw (Or.inl hnw)
      have h2 : ine < s.nodes.length := hI.childlt i ine (Or.inr (Or.inl hne))
      have h3 : ise < s.nodes.length := hI.childlt i ise (Or.inr (Or.inr (Or.inl hse)))
      have h4 : isw < s.nodes.length := hI.childlt i isw (Or.inr (Or.inr (Or.inr hsw)))
      split_ifs at hf
      · exact ih inw p j r h1 hf
      · exact ih ine p j r h2 hf
      · exact ih ise p j r h3 hf
      · exact ih isw p j r h4 hf
    · split_ifs at hf <;> simp_all
    · exact absurd hf (by simp)

theorem containingSubRegion_lt (s : PState) (hI : INV s) (i : Nat) (p : Coordinate)
    (j : Nat) (hr : s.containingSubRegion i p = .ok (some j)) : j < s.nodes.length := by
  simp only [PState.containingSubRegion] at hr
  split at hr
  · exact absurd hr (by simp)
  split at hr
  · rename_i inw hnw
    split at hr
    · rename_i ine ise isw hne hse hsw
      split_ifs at hr <;> simp at hr <;>
        first
        | exact hr ▸ hI.childlt i inw (Or.inl hnw)
        | exact hr ▸ hI.childlt i ine (Or.inr (Or.inl hne))
        | exact hr ▸ hI.childlt i ise (Or.inr (Or.inr (Or.inl hse)))
        | exact hr ▸ hI.childlt i isw (Or.inr (Or.inr (Or.inr hsw)))
    · exact absurd hr (by simp)
  · exact absurd hr (by simp)

/-! Writing the domain part of a valid slot preserves the allocator
invariant, and writing domain-equal values into kernel-equivalent states
preserves kernel equivalence. -/

theorem setSlot_INV (s : PState) (i : Nat) (v : PSlot) (hI : INV s)
    (hp : v.poolNext = (s.slot i).poolNext)
    (hc : ∀ j, v.nw = some j ∨ v.ne = some j ∨ v.se = some j ∨ v.sw = some j →
      j < s.nodes.length) :
    INV (s.setSlot i v) := by
  refine ⟨hI.pspos, ?_, ?_, ?_, ?_, hI.root0, ?_, ?_⟩
  · rw [setSlot_length]
    exact hI.poslen
  · intro i2 hi2
    rw [setSlot_length] at hi2
    rw [slot_set]
    split_ifs with hcase
    · rcases hcase with ⟨rfl, hlt⟩
      rw [hp]
      exact hI.chain i2 hi2
    · exact hI.chain i2 hi2
  · rw [setSlot_length, slot_set]
    split_ifs with hcase
    · rw [hp, ← hcase.1]
      exact hI.lastnone
    · exact hI.lastnone
  · obtain ⟨k, hk, hkl⟩ := hI.headlt
    refine ⟨k, ?_, ?_⟩
    · rw [setSlot_head]
      exact hk
    · rw [setSlot_length]
      exact hkl
  · intro r hr
    rw [setSlot_treeRoot] at hr
    rw [setSlot_length]
    exact hI.rootlt r hr
  · intro i2 j hj
    rw [setSlot_length]
    rw [slot_set] at hj
    split_ifs at hj with hcase
    · exact hc j hj
    · exact hI.childlt i2 j hj

theorem setSlot_keq (s1 s2 : PState) (h : KEq s1 s2) (i : Nat) (v1 v2 : PSlot)
    (h1 : i < s1.nodes.length) (h2 : i < s2.nodes.length) (hv : dpSlot v1 = dpSlot v2) :
    KEq (s1.setSlot i v1) (s2.setSlot i v2) := by
  refine ⟨?_, ?_, ?_, ?_⟩
  · rw [setSlot_head, setSlot_head]
    exact h.head
  · rw [setSlot_root, setSlot_root]
    exact h.root
  · rw [setSlot_treeRoot, setSlot_treeRoot]
    exact h.treeRoot
  · intro j
    rw [slot_set, slot_set]
    by_cases hj : j = i
    · rw [if_pos ⟨hj, h1⟩, if_pos ⟨hj, h2⟩]
      exact hv
    · rw [if_neg (fun hcc => hj hcc.1), if_neg (fun hcc => hj hcc.1)]
      exact h.slots j

theorem withPage_length (s : PState) :
    s.withPage.nodes.length = s.nodes.length + s.pageSize := by
  show (s.nodes ++ _).length = _
  rw [List.length_append, List.length_map, List.length_range]

theorem withPage_slot (s : PState) (j : Nat) :
    s.withPage.slot j =
      if j < s.nodes.length then s.slot j
      else if j < s.nodes.length + s.pageSize then
        pageSlot s.nodes.length s.pageSize (j - s.nodes.length)
      else blankSlot := by
  show (s.nodes ++ _).getD j blankSlot = _
  rw [getD_append]
  by_cases hj : j < s.nodes.length
  · rw [if_pos hj, if_pos hj]
    rfl
  · rw [if_neg hj, if_neg hj, getD_page]
    by_cases hj2 : j < s.nodes.length + s.pageSize
    · rw [if_pos (by omega), if_pos hj2]
    · rw [if_neg (by omega), if_neg hj2]

theorem INV_sethead (s : PState) (n : Nat) (hI : INV s) (hn : n < s.nodes.length) :
    INV { s with head := some n } :=
  ⟨hI.pspos, hI.poslen, hI.chain, hI.lastnone, ⟨n, rfl, hn⟩, hI.root0, hI.rootlt, hI.childlt⟩

/-- `AllocateNode` under the invariant: it always succeeds, pops exactly
the head slot `k`, moves the head to `k + 1` (appending a fresh page
first when `k` was the last slot, which keeps the free chain
contiguous), blanks the domain part of slot `k` and touches no other
slot's domain part. -/
theorem allocateNode_ok (s : PState) (k : Nat) (hI : INV s) (hk : s.head = some k) :
    ∃ t, s.allocateNode = .ok (k, t) ∧ INV t ∧ t.head = some (k + 1) ∧
      t.root = s.root ∧ t.treeRoot = s.treeRoot ∧ t.pageSize = s.pageSize ∧
      s.nodes.length ≤ t.nodes.length ∧ k + 1 < t.nodes.length ∧
      dpSlot (t.slot k) = dpSlot blankSlot ∧
      ∀ j, j ≠ k → dpSlot (t.slot j) = dpSlot (s.slot j) := by
  have hkL : k < s.nodes.length := by
    obtain ⟨k0, hk0, hl⟩ := hI.headlt
    have hkk : some k0 = some k := hk0.symm.trans hk
    injection hkk with hkk
    subst hkk
    exact hl
  by_cases hcase : k + 1 < s.nodes.length
  · -- the head has a successor in place: no page is allocated
    have hpn : (s.slot k).poolNext = some (k + 1) := hI.chain k hcase
    have hneed : s.headNeedsPage = false := by
      unfold PState.headNeedsPage
      rw [hk]
      dsimp only
      rw [hpn]
      rfl
    refine ⟨{ s.setSlot k { blankSlot with poolNext := some (k + 1) } with
        head := some (k + 1) }, ?_, ?_, rfl, rfl, rfl, rfl, ?_, ?_, ?_, ?_⟩
    · unfold PState.allocateNode
      rw [hneed, if_neg (by simp), ebind_ok]
      dsimp only
      rw [hk]
      dsimp only
      rw [hpn]
    · have hIs : INV (s.setSlot k { blankSlot with poolNext := some (k + 1) }) := by
        refine setSlot_INV s k _ hI ?_ ?_
        · rw [hpn]
        · intro j hj
          simp [blankSlot] at hj
      exact ⟨hIs.pspos, hIs.poslen, hIs.chain, hIs.lastnone,
        ⟨k + 1, rfl, by rw [setSlot_length]; exact hcase⟩,
        hIs.root0, hIs.rootlt, hIs.childlt⟩
    · rw [setSlot_length]
    · rw [setSlot_length]
      exact hcase
    · have hself : (s.setSlot k { blankSlot with poolNext := some (k + 1) }).slot k =
          { blankSlot with poolNext := some (k + 1) } := slot_set_self s k _ hkL
      exact (congrArg dpSlot hself).trans rfl
    · intro j hj
      have hoth : (s.setSlot k { blankSlot with poolNext := some (k + 1) }).slot j =
          s.slot j := slot_set_other s k j _ hj
      exact congrArg dpSlot hoth
  · -- the head is the last slot: a fresh page is appended first
    have hk1 : k + 1 = s.nodes.length := by omega
    have hpnone : (s.slot k).poolNext = none := by
      have hl := hI.lastnone
      rw [show s.nodes.length - 1 = k by omega] at hl
      exact hl
    have hneed : s.headNeedsPage = true := by
      unfold PState.headNeedsPage
      rw [hk]
      dsimp only
      rw [hpnone]
      rfl
    have hps := hI.pspos
    have hgd : (s.nodes ++
        (List.range s.pageSize).map (pageSlot s.nodes.length s.pageSize)).getD k blankSlot =
        s.slot k := by
      rw [getD_append, if_pos hkL]
      rfl
    have hpage : s.allocatePage = .ok (s.withPage.setSlot k
        { s.slot k with poolNext := some s.nodes.length }) := by
      simp only [PState.allocatePage]
      rw [if_neg (by omega), hI.root0, hk]
      dsimp only
      rw [hgd, ← hk, ← hI.root0]
      rfl
    have hALen : (s.withPage.setSlot k
        { s.slot k with poolNext := some s.nodes.length }).nodes.length =
        s.nodes.length + s.pageSize := by
      rw [setSlot_length]
      exact withPage_length s
    have hApn : ((s.withPage.setSlot k
        { s.slot k with poolNext := some s.nodes.length }).slot k).poolNext =
        some s.nodes.length := by
      rw [slot_set_self _ k _ (by rw [withPage_length]; omega)]
    set X := (s.withPage.setSlot k
        { s.slot k with poolNext := some s.nodes.length }).setSlot k
          { blankSlot with poolNext := some s.nodes.length } with hXdef
    have hTlen : X.nodes.length = s.nodes.length + s.pageSize := by
      rw [hXdef, setSlot_length]
      exact hALen
    have hslotT : ∀ j, X.slot j =
        if j = k then { blankSlot with poolNext := some s.nodes.length }
        else if j < s.nodes.length then s.slot j
        else if j < s.nodes.length + s.pageSize then
          pageSlot s.nodes.length s.pageSize (j - s.nodes.length)
        else blankSlot := by
      intro j
      rw [hXdef]
      by_cases hj : j = k
      · subst hj
        rw [if_pos rfl, slot_set_self _ j _ (by rw [hALen]; omega)]
      · rw [if_neg hj, slot_set_other _ k j _ hj, slot_set_other _ k j _ hj,
          withPage_slot s j]
    refine ⟨{ X with head := some s.nodes.length }, ?_, ?_, ?_, rfl, rfl, rfl, ?_, ?_, ?_, ?_⟩
    · unfold PState.allocateNode
      rw [hneed, if_pos rfl, hpage, ebind_ok]
      dsimp only
      rw [show (s.withPage.setSlot k
          { s.slot k with poolNext := some s.nodes.length }).head = some k from
        (setSlot_head _ _ _).trans hk]
      dsimp only
      rw [hApn]
    · -- the invariant after the page append and the pop
      refine INV_sethead X s.nodes.length ?_ ?_
      · refine ⟨hI.pspos, ?_, ?_, ?_, ?_, ?_, ?_, ?_⟩
        · rw [hTlen]
          omega
        · intro i2 hi2
          rw [hTlen] at hi2
          rw [hslotT i2]
          split_ifs with hc1 hc2 hc3
          · subst hc1
            show some s.nodes.length = some (i2 + 1)
            exact congrArg some (by omega)
          · exact hI.chain i2 (by omega)
          · show (if i2 - s.nodes.length + 1 < s.pageSize then
                some (s.nodes.length + (i2 - s.nodes.length) + 1) else none) = some (i2 + 1)
            rw [if_pos (by omega)]
            exact congrArg some (by omega)
          · omega
        · rw [hTlen, hslotT]
          rw [if_neg (by omega), if_neg (by omega), if_pos (by omega)]
          show (if s.nodes.length + s.pageSize - 1 - s.nodes.length + 1 < s.pageSize then
              some (s.nodes.length + (s.nodes.length + s.pageSize - 1 - s.nodes.length) + 1)
            else none) = none
          rw [if_neg (by omega)]
        · refine ⟨k, ?_, ?_⟩
          · rw [hXdef, setSlot_head, setSlot_head]
            exact hk
          · rw [hTlen]
            omega
        · rw [hXdef, setSlot_root, setSlot_root]
          exact hI.root0
        · intro r hr
          rw [hXdef, setSlot_treeRoot, setSlot_treeRoot] at hr
          rw [hTlen]
          have := hI.rootlt r hr
          omega
        · intro i2 j hj
          rw [hTlen]
          rw [hslotT i2] at hj
          split_ifs at hj with hc1 hc2 hc3
          · simp [blankSlot] at hj
          · have := hI.childlt i2 j hj
            omega
          · simp [pageSlot, blankSlot] at hj
          · simp [blankSlot] at hj
      · rw [hTlen]
        omega
    · show some s.nodes.length = some (k + 1)
      rw [← hk1]
    · rw [hTlen]
      omega
    · rw [hTlen]
      omega
    · have hself : X.slot k = { blankSlot with poolNext := some s.nodes.length } := by
        rw [hXdef]
        exact slot_set_self _ k _ (by rw [hALen]; omega)
      exact (congrArg dpSlot hself).trans rfl
    · intro j hj
      have hgoal : dpSlot (X.slot j) = dpSlot (s.slot j) := by
        rw [hslotT j, if_neg hj]
        by_cases hj1 : j < s.nodes.length
        · rw [if_pos hj1]
        · rw [if_neg hj1, slot_oob s j (by omega)]
          by_cases hj2 : j < s.nodes.length + s.pageSize
          · rw [if_pos hj2]
            exact dp_pageSlot _ _ _
          · rw [if_neg hj2]
      exact hgoal

/-- `AllocateRegionNode` under the invariant: the freshly popped slot is
blank, so the `m_point == CCoordinate()` assert of `InitializeAsRegion`
never fires; the popped slot `k` becomes a childless `Region` with the
requested bounds. -/
theorem allocateRegionNode_ok (s : PState) (k : Nat) (hI : INV s) (hk : s.head = some k)
    (b : Bounds) :
    ∃ t, s.allocateRegionNode b = .ok (k, t) ∧ INV t ∧ t.head = some (k + 1) ∧
      t.root = s.root ∧ t.treeRoot = s.treeRoot ∧ t.pageSize = s.pageSize ∧
      s.nodes.length ≤ t.nodes.length ∧ k + 1 < t.nodes.length ∧
      dpSlot (t.slot k) = dpSlot { blankSlot with regionBounds := b, nodeType := .Region } ∧
      ∀ j, j ≠ k → dpSlot (t.slot j) = dpSlot (s.slot j) := by
  obtain ⟨t0, hcomp, hI0, hhead0, hroot0, htr0, hps0, hlen0, hk1len, hdpk, hframe⟩ :=
    allocateNode_ok s k hI hk
  have hpt : (t0.slot k).point = Coordinate.zero := dp_point hdpk
  refine ⟨t0.setSlot k { t0.slot k with regionBounds := b, nodeType := .Region },
    ?_, ?_, ?_, ?_, ?_, ?_, ?_, ?_, ?_, ?_⟩
  · unfold PState.allocateRegionNode
    rw [hcomp, ebind_ok]
    dsimp only
    rw [if_pos hpt]
  · refine setSlot_INV t0 k _ hI0 rfl ?_
    intro j hj
    rcases hj with hj | hj | hj | hj
    · have hj2 : (t0.slot k).nw = some j := hj
      rw [dp_nw hdpk] at hj2
      simp [blankSlot] at hj2
    · have hj2 : (t0.slot k).ne = some j := hj
      rw [dp_ne hdpk] at hj2
      simp [blankSlot] at hj2
    · have hj2 : (t0.slot k).se = some j := hj
      rw [dp_se hdpk] at hj2
      simp [blankSlot] at hj2
    · have hj2 : (t0.slot k).sw = some j := hj
      rw [dp_sw hdpk] at hj2
      simp [blankSlot] at hj2
  · rw [setSlot_head]
    exact hhead0
  · rw [setSlot_root]
    exact hroot0
  · rw [setSlot_treeRoot]
    exact htr0
  · rw [setSlot_pageSize]
    exact hps0
  · rw [setSlot_length]
    exact hlen0
  · rw [setSlot_length]
    exact hk1len
  · rw [slot_set_self t0 k _ (by omega)]
    have hpt2 : (t0.slot k).point = blankSlot.point := dp_point hdpk
    have hnw2 : (t0.slot k).nw = blankSlot.nw := dp_nw hdpk
    have hne2 : (t0.slot k).ne = blankSlot.ne := dp_ne hdpk
    have hse2 : (t0.slot k).se = blankSlot.se := dp_se hdpk
    have hsw2 : (t0.slot k).sw = blankSlot.sw := dp_sw hdpk
    exact dp_congr rfl hpt2 hnw2 hne2 hse2 hsw2 rfl
  · intro j hj
    rw [slot_set_other t0 k j _ hj]
    exact hframe j hj

/-- Lockstep `AllocateRegionNode`: two kernel-equivalent states with the
same head allocate the same slot index and stay kernel-equivalent. -/
theorem allocateRegionNode_keq (s1 s2 : PState) (b : Bounds) (h : KEq s1 s2)
    (hI1 : INV s1) (hI2 : INV s2) (k : Nat) (hk : s1.head = some k) :
    ∃ t1 t2, s1.allocateRegionNode b = .ok (k, t1) ∧ s2.allocateRegionNode b = .ok (k, t2) ∧
      KEq t1 t2 ∧ INV t1 ∧ INV t2 ∧ t1.head = some (k + 1) ∧ t2.head = some (k + 1) ∧
      s1.nodes.length ≤ t1.nodes.length ∧ s2.nodes.length ≤ t2.nodes.length ∧
      k + 1 < t1.nodes.length ∧ k + 1 < t2.nodes.length := by
  have hk2 : s2.head = some k := h.head ▸ hk
  obtain ⟨t1, hc1, hI1n, hh1, hr1, htr1, hp1, hl1, hk1, hdp1, hf1⟩ :=
    allocateRegionNode_ok s1 k hI1 hk b
  obtain ⟨t2, hc2, hI2n, hh2, hr2, htr2, hp2, hl2, hk2b, hdp2, hf2⟩ :=
    allocateRegionNode_ok s2 k hI2 hk2 b
  refine ⟨t1, t2, hc1, hc2, ⟨?_, ?_, ?_, ?_⟩, hI1n, hI2n, hh1, hh2, hl1, hl2, hk1, hk2b⟩
  · rw [hh1, hh2]
  · rw [hr1, hr2, h.root]
  · rw [htr1, htr2, h.treeRoot]
  · intro j
    by_cases hj : j = k
    · subst hj
      rw [hdp1, hdp2]
    · rw [hf1 j hj, hf2 j hj]
      exact h.slots j

/-- Lockstep `Split`: on kernel-equivalent states it either fires the
same assert or allocates the same four child indices and stays
kernel-equivalent. -/
theorem splitP_keq (s1 s2 : PState) (i : Nat) (h : KEq s1 s2) (hI1 : INV s1) (hI2 : INV s2)
    (hi1 : i < s1.nodes.length) (hi2 : i < s2.nodes.length) :
    exceptRel (fun t1 t2 => KEq t1 t2 ∧ INV t1 ∧ INV t2 ∧
        s1.nodes.length ≤ t1.nodes.length ∧ s2.nodes.length ≤ t2.nodes.length)
      (s1.splitP i) (s2.splitP i) := by
  obtain ⟨k, hk, hkl⟩ := hI1.headlt
  simp only [PState.splitP]
  rw [dp_nw (h.slots i), dp_ne (h.slots i), dp_se (h.slots i), dp_sw (h.slots i),
    dp_regionBounds (h.slots i)]
  split_ifs with hch
  · rfl
  obtain ⟨t1a, t2a, hc1a, hc2a, hka, hI1a, hI2a, hh1a, hh2a, hl1a, hl2a, hm1a, hm2a⟩ :=
    allocateRegionNode_keq s1 s2 (splitBounds (s2.slot i).regionBounds).1 h hI1 hI2 k hk
  rw [hc1a, hc2a]
  simp only [ebind_ok]
  obtain ⟨t1b, t2b, hc1b, hc2b, hkb, hI1b, hI2b, hh1b, hh2b, hl1b, hl2b, hm1b, hm2b⟩ :=
    allocateRegionNode_keq t1a t2a (splitBounds (s2.slot i).regionBounds).2.1 hka hI1a hI2a
      (k + 1) hh1a
  rw [hc1b, hc2b]
  simp only [ebind_ok]
  obtain ⟨t1c, t2c, hc1c, hc2c, hkc, hI1c, hI2c, hh1c, hh2c, hl1c, hl2c, hm1c, hm2c⟩ :=
    allocateRegionNode_keq t1b t2b (splitBounds (s2.slot i).regionBounds).2.2.1 hkb hI1b hI2b
      (k + 1 + 1) hh1b
  rw [hc1c, hc2c]
  simp only [ebind_ok]
  obtain ⟨t1d, t2d, hc1d, hc2d, hkd, hI1d, hI2d, hh1d, hh2d, hl1d, hl2d, hm1d, hm2d⟩ :=
    allocateRegionNode_keq t1c t2c (splitBounds (s2.slot i).regionBounds).2.2.2 hkc hI1c hI2c
      (k + 1 + 1 + 1) hh1c
  rw [hc1d, hc2d]
  simp only [ebind_ok]
  refine ⟨?_, ?_, ?_, ?_, ?_⟩
  · refine setSlot_keq t1d t2d hkd i _ _ (by omega) (by omega) ?_
    have hrb2 : (t1d.slot i).regionBounds = (t2d.slot i).regionBounds :=
      dp_regionBounds (hkd.slots i)
    exact dp_congr hrb2 rfl rfl rfl rfl rfl rfl
  · refine setSlot_INV t1d i _ hI1d rfl ?_
    intro j hj
    rcases hj with hj | hj | hj | hj <;> injection hj with hj <;> omega
  · refine setSlot_INV t2d i _ hI2d rfl ?_
    intro j hj
    rcases hj with hj | hj | hj | hj <;> injection hj with hj <;> omega
  · rw [setSlot_length]
    omega
  · rw [setSlot_length]
    omega

/-- Lockstep collision loop of `Insert`: kernel-equivalent states with
the same colliding leaf produce the same assert or the same pair of
final child indices, with kernel-equivalent states. -/
theorem pCollideLoop_keq : ∀ (fuel : Nat) (s1 s2 : PState) (iSub : Nat) (e p : Coordinate),
    KEq s1 s2 → INV s1 → INV s2 → iSub < s1.nodes.length → iSub < s2.nodes.length →
    exceptRel (fun a b => a.2 = b.2 ∧ KEq a.1 b.1 ∧ INV a.1 ∧ INV b.1 ∧
        a.2.1 < a.1.nodes.length ∧ a.2.2 < a.1.nodes.length ∧
        b.2.1 < b.1.nodes.length ∧ b.2.2 < b.1.nodes.length)
      (pCollideLoop fuel s1 iSub e p) (pCollideLoop fuel s2 iSub e p) := by
  intro fuel
  induction fuel with
  | zero =>
    intro s1 s2 iSub e p h hI1 hI2 hi1 hi2
    rfl
  | succ n ih =>
    intro s1 s2 iSub e p h hI1 hI2 hi1 hi2
    have hsp := splitP_keq s1 s2 iSub h hI1 hI2 hi1 hi2
    simp only [pCollideLoop]
    rcases hres1 : s1.splitP iSub with e1 | t1 <;>
      rcases hres2 : s2.splitP iSub with e2 | t2 <;> rw [hres1, hres2] at hsp
    · have he : e1 = e2 := hsp
      subst he
      rfl
    · exact hsp.elim
    · exact hsp.elim
    obtain ⟨hk12, hIt1, hIt2, hml1, hml2⟩ := hsp
    simp only [ebind_ok]
    have hce := containingSubRegion_keq t1 t2 hk12 iSub e
    have hcp := containingSubRegion_keq t1 t2 hk12 iSub p
    rcases hrese : t2.containingSubRegion iSub e with ee | oe
    · rw [hce, hrese]
      simp only [ebind_error]
      rfl
    rw [hce, hrese]
    simp only [ebind_ok]
    rcases hresp : t2.containingSubRegion iSub p with ep | on2
    · rw [hcp, hresp]
      simp only [ebind_error]
      rfl
    rw [hcp, hresp]
    simp only [ebind_ok]
    rcases oe with _ | e1i
    · rfl
    rcases on2 with _ | n2i
    · rfl
    have he1 : e1i < t1.nodes.length :=
      containingSubRegion_lt t1 hIt1 iSub e e1i (hce.trans hrese)
    have he2 : e1i < t2.nodes.length :=
      containingSubRegion_lt t2 hIt2 iSub e e1i hrese
    have hn1 : n2i < t1.nodes.length :=
      containingSubRegion_lt t1 hIt1 iSub p n2i (hcp.trans hresp)
    have hn2 : n2i < t2.nodes.length :=
      containingSubRegion_lt t2 hIt2 iSub p n2i hresp
    dsimp only
    by_cases heq : e1i = n2i
    · rw [if_pos heq, if_pos heq]
      exact ih t1 t2 n2i e p hk12 hIt1 hIt2 hn1 hn2
    · rw [if_neg heq, if_neg heq]
      exact ⟨rfl, hk12, hIt1, hIt2, he1, hn1, he2, hn2⟩

theorem setSlot_mark_INV (t : PState) (i : Nat) (hI : INV t) (ty : NType) (pt : Coordinate) :
    INV (t.setSlot i { t.slot i with nodeType := ty, point := pt }) := by
  refine setSlot_INV t i _ hI rfl ?_
  intro j hj
  exact hI.childlt i j hj

theorem setSlot_mark_keq (t1 t2 : PState) (h : KEq t1 t2) (i : Nat)
    (h1 : i < t1.nodes.length) (h2 : i < t2.nodes.length) (ty : NType) (pt : Coordinate) :
    KEq (t1.setSlot i { t1.slot i with nodeType := ty, point := pt })
        (t2.setSlot i { t2.slot i with nodeType := ty, point := pt }) := by
  refine setSlot_keq t1 t2 h i _ _ h1 h2 ?_
  have hrb2 : (t1.slot i).regionBounds = (t2.slot i).regionBounds :=
    dp_regionBounds (h.slots i)
  have hnw2 : (t1.slot i).nw = (t2.slot i).nw := dp_nw (h.slots i)
  have hne2 : (t1.slot i).ne = (t2.slot i).ne := dp_ne (h.slots i)
  have hse2 : (t1.slot i).se = (t2.slot i).se := dp_se (h.slots i)
  have hsw2 : (t1.slot i).sw = (t2.slot i).sw := dp_sw (h.slots i)
  exact dp_congr hrb2 rfl hnw2 hne2 hse2 hsw2 rfl

/-- Lockstep `Insert`: kernel-equivalent valid states yield the same
result value (or the same assert), and kernel-equivalent valid states. -/
theorem insertP_keq (s1 s2 : PState) (p : Coordinate) (ffind floop : Nat)
    (h : KEq s1 s2) (hI1 : INV s1) (hI2 : INV s2) :
    exceptRel (fun a b => a.1 = b.1 ∧ KEq a.2 b.2 ∧ INV a.2 ∧ INV b.2)
      (s1.insertP p ffind floop) (s2.insertP p ffind floop) := by
  simp only [PState.insertP]
  rw [h.treeRoot]
  rcases htr : s2.treeRoot with _ | r
  · rfl
  dsimp only
  rw [dp_regionBounds (h.slots r)]
  by_cases hroot : (s2.slot r).regionBounds.containsB p = true
  case neg =>
    rw [if_pos hroot, if_pos hroot]
    rfl
  rw [if_neg (fun hn => hn hroot), if_neg (fun hn => hn hroot)]
  have hrlt1 : r < s1.nodes.length := hI1.rootlt r (h.treeRoot.trans htr)
  have hrlt2 : r < s2.nodes.length := hI2.rootlt r htr
  have hff := findFrom_keq s1 s2 h ffind r p
  rcases hfr : s2.findFrom ffind r p with ef | ir
  · rw [hff, hfr]
    simp only [ebind_error]
    rfl
  rw [hff, hfr]
  simp only [ebind_ok]
  have hif1 : ir.1 < s1.nodes.length :=
    findFrom_lt s1 hI1 ffind r p ir.1 ir.2 hrlt1 (by rw [hff, hfr])
  have hif2 : ir.1 < s2.nodes.length :=
    findFrom_lt s2 hI2 ffind r p ir.1 ir.2 hrlt2 (by rw [hfr])
  rw [dp_point (h.slots ir.1), dp_nodeType (h.slots ir.1), dp_nw (h.slots ir.1),
    dp_ne (h.slots ir.1), dp_se (h.slots ir.1), dp_sw (h.slots ir.1)]
  split_ifs with h1 h2 h3 h4 h5
  · exact ⟨rfl, h, hI1, hI2⟩
  · rfl
  · rfl
  · -- the collision path
    have hpc := pCollideLoop_keq floop s1 s2 ir.1 (s2.slot ir.1).point p h hI1 hI2 hif1 hif2
    rcases hr1 : pCollideLoop floop s1 ir.1 (s2.slot ir.1).point p with e1 | a <;>
      rcases hr2 : pCollideLoop floop s2 ir.1 (s2.slot ir.1).point p with e2 | b <;>
        rw [hr1, hr2] at hpc
    · have he : e1 = e2 := hpc
      subst he
      try rw [ebind_error]
      try rw [ebind_error]
      rfl
    · exact hpc.elim
    · exact hpc.elim
    obtain ⟨hab, hkab, hIa, hIb, ha1, ha2, hb1, hb2⟩ := hpc
    simp only [ebind_ok]
    have hb1a : a.2.1 < b.1.nodes.length := by
      rw [hab]
      exact hb1
    have hb2a : a.2.2 < b.1.nodes.length := by
      rw [hab]
      exact hb2
    rw [← hab]
    refine ⟨rfl, ?_, ?_, ?_⟩
    · have h1k := setSlot_mark_keq a.1 b.1 hkab a.2.1 ha1 hb1a NType.Leaf (s2.slot ir.1).point
      have h2k := setSlot_mark_keq _ _ h1k a.2.2
        (by rw [setSlot_length]; exact ha2) (by rw [setSlot_length]; exact hb2a)
        NType.Leaf p
      exact h2k
    · exact setSlot_mark_INV _ _ (setSlot_mark_INV a.1 a.2.1 hIa _ _) _ _
    · exact setSlot_mark_INV _ _ (setSlot_mark_INV b.1 a.2.1 hIb _ _) _ _
  · refine ⟨rfl, ?_, ?_, ?_⟩
    · refine setSlot_keq s1 s2 h ir.1 _ _ hif1 hif2 ?_
      have hrb2 : (s1.slot ir.1).regionBounds = (s2.slot ir.1).regionBounds :=
        dp_regionBounds (h.slots ir.1)
      exact dp_congr hrb2 rfl rfl rfl rfl rfl rfl
    · refine setSlot_INV s1 ir.1 _ hI1 rfl ?_
      intro j hj
      refine hI1.childlt ir.1 j ?_
      rcases hj with hj | hj | hj | hj
      · exact Or.inl (by rw [dp_nw (h.slots ir.1)]; exact hj)
      · exact Or.inr (Or.inl (by rw [dp_ne (h.slots ir.1)]; exact hj))
      · exact Or.inr (Or.inr (Or.inl (by rw [dp_se (h.slots ir.1)]; exact hj)))
      · exact Or.inr (Or.inr (Or.inr (by rw [dp_sw (h.slots ir.1)]; exact hj)))
    · exact setSlot_mark_INV s2 ir.1 hI2 NType.Leaf p
  · rfl

/-- Construction with any page size of at least two: one page is
allocated, slot `0` becomes the full-domain root region, the head is
slot `1`, and the allocator invariant holds. -/
theorem newTree_ok (ps : Nat) (h2 : 2 ≤ ps) :
    ∃ s, newTree ps = .ok s ∧ INV s ∧ s.head = some 1 ∧ s.treeRoot = some 0 ∧
      dpSlot (s.slot 0) =
        dpSlot { blankSlot with regionBounds := fullBounds, nodeType := .Region } ∧
      ∀ j, j ≠ 0 → dpSlot (s.slot j) = dpSlot blankSlot := by
  have hp0 : ¬ (ps = 0) := by omega
  have hpage : (⟨ps, [], none, none, none⟩ : PState).allocatePage =
      .ok ⟨ps, (List.range ps).map (pageSlot 0 ps), some 0, some 0, none⟩ := by
    simp only [PState.allocatePage]
    rw [if_neg hp0]
    rfl
  have hlenA : ((⟨ps, (List.range ps).map (pageSlot 0 ps), some 0, some 0, none⟩ :
      PState)).nodes.length = ps := by
    show ((List.range ps).map (pageSlot 0 ps)).length = ps
    rw [List.length_map, List.length_range]
  have hs0p : (((⟨ps, (List.range ps).map (pageSlot 0 ps), some 0, some 0, none⟩ :
      PState)).slot 0).poolNext = some 1 := by
    show (((List.range ps).map (pageSlot 0 ps)).getD 0 blankSlot).poolNext = some 1
    rw [getD_page, if_pos (by omega)]
    show (if 0 + 1 < ps then some (0 + 0 + 1) else none) = some 1
    rw [if_pos (by omega)]
  have halloc : (⟨ps, [], none, none, none⟩ : PState).allocateNode = .ok (0,
      { (⟨ps, (List.range ps).map (pageSlot 0 ps), some 0, some 0, none⟩ :
          PState).setSlot 0 { blankSlot with poolNext := some 1 } with head := some 1 }) := by
    unfold PState.allocateNode
    rw [show (⟨ps, [], none, none, none⟩ : PState).headNeedsPage = true from rfl,
      if_pos rfl, hpage, ebind_ok]
    dsimp only
    rw [hs0p]
  have hslot0 : ({ (⟨ps, (List.range ps).map (pageSlot 0 ps), some 0, some 0, none⟩ :
      PState).setSlot 0 { blankSlot with poolNext := some 1 } with head := some 1 } :
        PState).slot 0 = { blankSlot with poolNext := some 1 } :=
    slot_set_self _ 0 _ (by rw [hlenA]; omega)
  have hregion : (⟨ps, [], none, none, none⟩ : PState).allocateRegionNode fullBounds =
      .ok (0, ({ (⟨ps, (List.range ps).map (pageSlot 0 ps), some 0, some 0, none⟩ :
          PState).setSlot 0 { blankSlot with poolNext := some 1 } with head := some 1 } :
            PState).setSlot 0
        { ({ (⟨ps, (List.range ps).map (pageSlot 0 ps), some 0, some 0, none⟩ :
            PState).setSlot 0 { blankSlot with poolNext := some 1 } with head := some 1 } :
              PState).slot 0 with
          regionBounds := fullBounds, nodeType := .Region }) := by
    unfold PState.allocateRegionNode
    rw [halloc, ebind_ok]
    dsimp only
    rw [if_pos (by rw [hslot0]; rfl)]
  have hbuild : newTree ps = .ok { (({ (⟨ps,
      (List.range ps).map (pageSlot 0 ps), some 0, some 0, none⟩ :
          PState).setSlot 0 { blankSlot with poolNext := some 1 } with head := some 1 } :
            PState).setSlot 0
        { ({ (⟨ps, (List.range ps).map (pageSlot 0 ps), some 0, some 0, none⟩ :
            PState).setSlot 0 { blankSlot with poolNext := some 1 } with head := some 1 } :
              PState).slot 0 with
          regionBounds := fullBounds, nodeType := .Region }) with treeRoot := some 0 } := by
    unfold newTree
    rw [if_neg hp0]
    unfold PState.resetP
    dsimp only
    rw [hregion, ebind_ok]
  set sF := { (({ (⟨ps, (List.range ps).map (pageSlot 0 ps), some 0, some 0, none⟩ :
      PState).setSlot 0 { blankSlot with poolNext := some 1 } with head := some 1 } :
        PState).setSlot 0
      { ({ (⟨ps, (List.range ps).map (pageSlot 0 ps), some 0, some 0, none⟩ :
          PState).setSlot 0 { blankSlot with poolNext := some 1 } with head := some 1 } :
            PState).slot 0 with
        regionBounds := fullBounds, nodeType := .Region }) with treeRoot := some 0 } with hsF
  have hlenF : sF.nodes.length = ps := by
    rw [hsF, setSlot_length, setSlot_length]
    exact hlenA
  have hslotF : ∀ j, sF.slot j =
      if j = 0 then
        (⟨fullBounds, .zero, none, none, none, none, .Region, some 1⟩ : PSlot)
      else if j < ps then pageSlot 0 ps j else blankSlot := by
    intro j
    by_cases hj : j = 0
    · subst hj
      rw [if_pos rfl, hsF]
      have hsel : sF.slot 0 = { ({ (⟨ps, (List.range ps).map (pageSlot 0 ps),
          some 0, some 0, none⟩ :
          PState).setSlot 0 { blankSlot with poolNext := some 1 } with head := some 1 } :
            PState).slot 0 with
          regionBounds := fullBounds, nodeType := .Region } :=
        slot_set_self _ 0 _ (by rw [setSlot_length, hlenA]; omega)
      rw [hsF] at hsel
      rw [hsel, hslot0]
      rfl
    · rw [if_neg hj]
      have e1 : sF.slot j = ({ (⟨ps, (List.range ps).map (pageSlot 0 ps), some 0, some 0,
          none⟩ : PState).setSlot 0 { blankSlot with poolNext := some 1 } with
            head := some 1 } : PState).slot j :=
        slot_set_other _ 0 j _ hj
      have e2 : ({ (⟨ps, (List.range ps).map (pageSlot 0 ps), some 0, some 0,
          none⟩ : PState).setSlot 0 { blankSlot with poolNext := some 1 } with
            head := some 1 } : PState).slot j =
          (⟨ps, (List.range ps).map (pageSlot 0 ps), some 0, some 0, none⟩ :
            PState).slot j :=
        slot_set_other _ 0 j _ hj
      rw [e1, e2]
      show ((List.range ps).map (pageSlot 0 ps)).getD j blankSlot = _
      rw [getD_page]
  refine ⟨sF, hbuild, ⟨?_, ?_, ?_, ?_, ?_, ?_, ?_, ?_⟩, rfl, rfl, ?_, ?_⟩
  · show 0 < ps
    omega
  · rw [hlenF]
    omega
  · intro i hi
    rw [hlenF] at hi
    rw [hslotF i]
    split_ifs with hc1 hc2
    · subst hc1
      rfl
    · show (if i + 1 < ps then some (0 + i + 1) else none) = some (i + 1)
      rw [if_pos (by omega)]
      exact congrArg some (by omega)
    · omega
  · rw [hlenF, hslotF]
    rw [if_neg (by omega), if_pos (by omega)]
    show (if ps - 1 + 1 < ps then some (0 + (ps - 1) + 1) else none) = none
    rw [if_neg (by omega)]
  · refine ⟨1, rfl, ?_⟩
    rw [hlenF]
    omega
  · rfl
  · intro r hr
    have hr0 : some 0 = some r := hr
    injection hr0 with hr0
    rw [hlenF, ← hr0]
    omega
  · intro i j hj
    rw [hslotF i] at hj
    split_ifs at hj
    · simp at hj
    · simp [pageSlot, blankSlot] at hj
    · simp [blankSlot] at hj
  · rw [hslotF 0, if_pos rfl]
    rfl
  · intro j hj
    rw [hslotF j, if_neg hj]
    by_cases hjp : j < ps
    · rw [if_pos hjp]
      exact dp_pageSlot _ _ _
    · rw [if_neg hjp]

/-- Two fresh trees with page sizes of at least two are kernel
equivalent. -/
theorem newTree_keq (ps1 ps2 : Nat) (h1 : 2 ≤ ps1) (h2 : 2 ≤ ps2) :
    ∃ s1 s2, newTree ps1 = .ok s1 ∧ newTree ps2 = .ok s2 ∧ KEq s1 s2 ∧ INV s1 ∧ INV s2 := by
  obtain ⟨s1, hc1, hI1, hh1, ht1, hdp1, hf1⟩ := newTree_ok ps1 h1
  obtain ⟨s2, hc2, hI2, hh2, ht2, hdp2, hf2⟩ := newTree_ok ps2 h2
  refine ⟨s1, s2, hc1, hc2, ⟨?_, ?_, ?_, ?_⟩, hI1, hI2⟩
  · rw [hh1, hh2]
  · rw [hI1.root0, hI2.root0]
  · rw [ht1, ht2]
  · intro j
    by_cases hj : j = 0
    · subst hj
      rw [hdp1, hdp2]
    · rw [hf1 j hj, hf2 j hj]

theorem foldInserts_keq (ffind floop : Nat) : ∀ (l : List Coordinate) (s1 s2 : PState),
    KEq s1 s2 → INV s1 → INV s2 →
    exceptRel (fun t1 t2 => KEq t1 t2 ∧ INV t1 ∧ INV t2)
      (l.foldlM (fun s p => do
        let rs ← s.insertP p ffind floop
        Except.ok rs.2) s1)
      (l.foldlM (fun s p => do
        let rs ← s.insertP p ffind floop
        Except.ok rs.2) s2) := by
  intro l
  induction l with
  | nil =>
    intro s1 s2 h hI1 hI2
    exact ⟨h, hI1, hI2⟩
  | cons a l ih =>
    intro s1 s2 h hI1 hI2
    rw [List.foldlM_cons, List.foldlM_cons]
    have hins := insertP_keq s1 s2 a ffind floop h hI1 hI2
    rcases hr1 : s1.insertP a ffind floop with e1 | v1 <;>
      rcases hr2 : s2.insertP a ffind floop with e2 | v2 <;> rw [hr1, hr2] at hins
    · have he : e1 = e2 := hins
      subst he
      try simp only [ebind_error]
      rfl
    · exact hins.elim
    · exact hins.elim
    · obtain ⟨hv, hk, hIa, hIb⟩ := hins
      try simp only [ebind_ok]
      exact ih v1.2 v2.2 hk hIa hIb

theorem runInserts_keq (ps1 ps2 ffind floop : Nat) (h1 : 2 ≤ ps1) (h2 : 2 ≤ ps2)
    (l : List Coordinate) :
    exceptRel (fun t1 t2 => KEq t1 t2 ∧ INV t1 ∧ INV t2)
      (runInserts ps1 ffind floop l) (runInserts ps2 ffind floop l) := by
  obtain ⟨s1, s2, hc1, hc2, hk, hI1, hI2⟩ := newTree_keq ps1 ps2 h1 h2
  unfold runInserts
  rw [hc1, hc2]
  simp only [ebind_ok]
  exact foldInserts_keq ffind floop l s1 s2 hk hI1 hI2

/-- C9: Page-size equivalence.  For any two page sizes of at least two
(for example a small one such as 4, which forces repeated page
allocations, against one large page) and any insertion sequence, the
built trees give the same `Find` outcome for every query coordinate and
the same `SanityCheck` verdict (and the same assert, should one fire):
the page size only shapes the free list, never the tree. -/
theorem c9_page_size_equivalence (ps1 ps2 ffind floop fsan : Nat) (l : List Coordinate)
    (q : Coordinate) (h1 : 2 ≤ ps1) (h2 : 2 ≤ ps2) :
    findOutcome ps1 ffind floop l q = findOutcome ps2 ffind floop l q ∧
    sanityOutcome ps1 ffind floop fsan l = sanityOutcome ps2 ffind floop fsan l := by
  have hrel := runInserts_keq ps1 ps2 ffind floop h1 h2 l
  rcases hr1 : runInserts ps1 ffind floop l with e1 | s1 <;>
    rcases hr2 : runInserts ps2 ffind floop l with e2 | s2 <;> rw [hr1, hr2] at hrel
  · have he : e1 = e2 := hrel
    subst he
    constructor
    · unfold findOutcome
      rw [hr1, hr2]
      try rfl
    · unfold sanityOutcome
      rw [hr1, hr2]
      try rfl
  · exact hrel.elim
  · exact hrel.elim
  · obtain ⟨hk, hI1, hI2⟩ := hrel
    constructor
    · unfold findOutcome
      rw [hr1, hr2]
      simp only [ebind_ok]
      exact findP_keq s1 s2 hk ffind q
    · unfold sanityOutcome
      rw [hr1, hr2]
      simp only [ebind_ok]
      rw [sanityP_keq s1 s2 hk fsan]

/-- Witness for C9 at a concrete input: page size 4 against page size
64, a three-point insertion sequence, and a query, with both hypotheses
discharged by computation. -/
theorem c9_page_size_equivalence_witness :
    2 ≤ 4 ∧ 2 ≤ 64 ∧
      (findOutcome 4 70 70 [⟨5, 5⟩, ⟨9, 3⟩, ⟨1, 7⟩] ⟨5, 5⟩ =
          findOutcome 64 70 70 [⟨5, 5⟩, ⟨9, 3⟩, ⟨1, 7⟩] ⟨5, 5⟩ ∧
        sanityOutcome 4 70 70 70 [⟨5, 5⟩, ⟨9, 3⟩, ⟨1, 7⟩] =
          sanityOutcome 64 70 70 70 [⟨5, 5⟩, ⟨9, 3⟩, ⟨1, 7⟩]) :=
  ⟨by decide, by decide,
    c9_page_size_equivalence 4 64 70 70 70 [⟨5, 5⟩, ⟨9, 3⟩, ⟨1, 7⟩] ⟨5, 5⟩
      (by decide) (by decide)⟩

end PRQuadTree
